import Mathlib

/-!
Verification of the raster image engine in `src/PIL` (Image.py, ImageDraw.py,
ImageFont.py).

Modelling conventions:
* Python `bytes` values are `List Nat` with every element `< 256`.
* Python text lines are `List Nat` of character codes (the files involved are
  pure ASCII, where the UTF-8 bytes coincide with the code points).
* Python `int` is `Int`; Python `float` arithmetic is modelled by exact
  rational arithmetic over `ℚ` (the geometric claims are about the formulas,
  not about IEEE rounding).
* Python exceptions are modelled by `Except PyErr`; the repository raises
  `ValueError` with a distinguishing message everywhere, and `IndexError`
  for sequence subscripts, `struct.error` for `struct.pack` range failures.
* `zlib.compress` / `zlib.decompress` are opaque parameters of the codec;
  `zlib.crc32` is modelled concretely (see `crc32` below).
-/

deriving instance DecidableEq for Except

namespace PILSpec

/-- Errors surfaced by the Python code: `ValueError msg` for
`raise ValueError(msg)`, `indexError` for list subscript failures,
`structError` for `struct.pack`/`struct.unpack` failures. -/
inductive PyErr where
  | valueError (msg : String)
  | indexError
  | structError
  deriving DecidableEq, Repr

/-! ## Python sequence primitives -/

/-- Normalize a Python sequence index: negative indices count from the end;
returns `none` when the access would raise `IndexError`. -/
def pyNormIdx (len : Nat) (i : Int) : Option Nat :=
  let j : Int := if i < 0 then (len : Int) + i else i
  if 0 ≤ j ∧ j < (len : Int) then some j.toNat else none

/-- Python `l[i]` on a list. -/
def pyIndex {α : Type} (l : List α) (i : Int) : Except PyErr α :=
  match pyNormIdx l.length i with
  | none => .error .indexError
  | some j =>
    match l.get? j with
    | some a => .ok a
    | none => .error .indexError

/-- Python `l[i] = v` on a list. -/
def pySetIndex {α : Type} (l : List α) (i : Int) (v : α) : Except PyErr (List α) :=
  match pyNormIdx l.length i with
  | none => .error .indexError
  | some j => .ok (l.set j v)

/-- Clamp a Python slice bound to an index into a sequence of length `len`. -/
def pySliceBound (len : Nat) (i : Int) : Nat :=
  if i < 0 then ((len : Int) + i).toNat else min i.toNat len

/-- Python `l[a:b]` (step 1). -/
def pySlice {α : Type} (l : List α) (a b : Int) : List α :=
  let start := pySliceBound l.length a
  let stop := pySliceBound l.length b
  (l.drop start).take (stop - start)

/-- Python `range(a, b)` as a list of integers. -/
def intRange (a b : Int) : List Int :=
  (List.range (b - a).toNat).map (fun (k : Nat) => a + (k : Int))

/-- Python `int(x)` on a float: truncation toward zero. -/
def pyTrunc (q : ℚ) : Int :=
  if q < 0 then ⌈q⌉ else ⌊q⌋

/-! ## The Bitmap data model (`Image.py`) -/

/-- `PIL.Image.Image`: mode, width, height and a row-major pixel grid. -/
structure Image where
  mode : String
  width : Int
  height : Int
  pixels : List (List Int)
  deriving DecidableEq, Repr

/-- Well-formedness: nonnegative dimensions and a pixel grid of exactly
`height` rows of `width` pixels each. -/
def Image.wf (img : Image) : Prop :=
  0 ≤ img.width ∧ 0 ≤ img.height ∧
    img.pixels.map List.length =
      List.replicate img.height.toNat img.width.toNat

instance (img : Image) : Decidable img.wf := by
  unfold Image.wf; infer_instance

/-- `Image.new(mode, (width, height), color)` (module-level `new`). -/
def Image.new (mode : String) (width height : Nat) (color : Int) : Image :=
  { mode := mode, width := (width : Int), height := (height : Int),
    pixels := List.replicate height (List.replicate width color) }

/-- `_clamp_to_byte`: `max(0, min(255, int(value)))`. -/
def clampToByte (v : Int) : Int := max 0 (min 255 v)

/-- `Image.crop(box)`: one-sided clamping then Python slicing. -/
def Image.crop (img : Image) (box : Int × Int × Int × Int) : Image :=
  let left := max 0 box.1
  let upper := max 0 box.2.1
  let right := min img.width box.2.2.1
  let lower := min img.height box.2.2.2
  { mode := img.mode, width := right - left, height := lower - upper,
    pixels := (pySlice img.pixels upper lower).map (fun row => pySlice row left right) }

/-- `Image.getpixel((x, y))`: `self.pixels[y][x]`. -/
def Image.getpixel (img : Image) (pos : Int × Int) : Except PyErr Int := do
  let row ← pyIndex img.pixels pos.2
  pyIndex row pos.1

/-- `Image.putpixel((x, y), value)`: `self.pixels[y][x] = int(value)`. -/
def Image.putpixel (img : Image) (pos : Int × Int) (value : Int) :
    Except PyErr Image :=
  match pyNormIdx img.pixels.length pos.2 with
  | none => .error .indexError
  | some j =>
    match img.pixels.get? j with
    | none => .error .indexError
    | some row =>
      match pyNormIdx row.length pos.1 with
      | none => .error .indexError
      | some i => .ok { img with pixels := img.pixels.set j (row.set i value) }

/-- `Image.convert(mode)`. -/
def Image.convert (img : Image) (mode : String) : Except PyErr Image :=
  if mode ≠ "L" then .error (.valueError "Only grayscale conversion is supported")
  else .ok { img with mode := "L" }

/-- The clamped-to-bytes copy of a bitmap (what both encoders serialize). -/
def Image.clamped (img : Image) : Image :=
  { img with pixels := img.pixels.map (fun row => row.map clampToByte) }

/-- The pixel value stored at column `x`, row `y` of the grid. -/
def cell (img : Image) (x y : Nat) : Int :=
  (img.pixels.getD y []).getD x 0

/-- Everything about a bitmap except the stored pixel values: mode, the
size fields, and the shape of the grid (row count and row lengths). -/
def shapeOf (img : Image) : String × Int × Int × List Nat :=
  (img.mode, img.width, img.height, img.pixels.map List.length)

/-! ## FontMetrics (`ImageFont.py`) -/

/-- `ImageFont.ImageFont`: a nominal point size. -/
structure ImageFont where
  size : Int
  deriving DecidableEq, Repr

/-- `ImageFont.getbbox(text)`:
`(0, 0, max(1, int(len(text) * size * 0.6)), max(1, int(size)))`. -/
def ImageFont.getbbox (f : ImageFont) (text : String) : Int × Int × Int × Int :=
  let width := max 1 (pyTrunc ((text.length : ℚ) * (f.size : ℚ) * (6 / 10)))
  let height := max 1 f.size
  (0, 0, width, height)

/-- `ImageFont.load_default()`. -/
def loadDefault : ImageFont := { size := 10 }

/-- Modelled from the spec: the bounding box the specification describes,
with `round` where the code truncates —
`(0, 0, max(1, round(len(text) * size * 0.6)), max(1, size))`. -/
def specFontBbox (size : Int) (text : String) : Int × Int × Int × Int :=
  (0, 0, max 1 (round ((text.length : ℚ) * (size : ℚ) * (6 / 10))), max 1 size)

/-! ## The Rasterizer (`ImageDraw.py`)

Drawing operations are methods of `_Draw`, which only stores the bound
image; we model each operation as a function from the image to an
`Except PyErr Image`.  The Bresenham loop in `line` does not always
terminate on fractional endpoints, so it takes an explicit `fuel`
parameter counting loop iterations; all safety/frame theorems below hold
for every fuel value (every finite prefix of the walk). -/

/-- A guarded conditional pixel write: `if color is not None and cond:
putpixel(...)` — the per-pixel pattern of `_Draw.ellipse`. -/
def drawIf (c : Prop) [Decidable c] (img : Image) (p : Int × Int) :
    Option Int → Except PyErr Image
  | some v => if c then img.putpixel p v else .ok img
  | none => .ok img

/-- `_Draw.ellipse(bounding_box, fill, outline, width)` (4-tuple form). -/
def ellipse (img : Image) (box : ℚ × ℚ × ℚ × ℚ)
    (fill outline : Option Int) (width : Int) : Except PyErr Image :=
  let x0 := box.1; let y0 := box.2.1; let x1 := box.2.2.1; let y1 := box.2.2.2
  let cx := (x0 + x1) / 2
  let cy := (y0 + y1) / 2
  let rx := max 1 (|x1 - x0| / 2)
  let ry := max 1 (|y1 - y0| / 2)
  let w := max 1 width
  (intRange ⌊y0⌋ (⌈y1⌉ + 1)).foldlM (fun img y =>
    if y < 0 ∨ img.height ≤ y then .ok img
    else (intRange ⌊x0⌋ (⌈x1⌉ + 1)).foldlM (fun img x =>
      if x < 0 ∨ img.width ≤ x then .ok img
      else
        let value := (((x : ℚ) - cx) / rx) ^ 2 + (((y : ℚ) - cy) / ry) ^ 2
        Except.bind (drawIf (value ≤ 1) img (x, y) fill)
          (fun img =>
            drawIf (1 - ((w : ℚ) / max rx ry) ≤ value ∧
              value ≤ 1 + ((w : ℚ) / max rx ry)) img (x, y) outline)) img) img

/-- The square-neighborhood painting step inside `_Draw.line`'s walk. -/
def paintSquare (img : Image) (x y : ℚ) (w : Nat) (fill : Option Int) :
    Except PyErr Image :=
  (intRange (pyTrunc x - (w / 2 : Nat)) (pyTrunc x + (w / 2 : Nat) + 1)).foldlM
    (fun img ix =>
      (intRange (pyTrunc y - (w / 2 : Nat)) (pyTrunc y + (w / 2 : Nat) + 1)).foldlM
        (fun img iy =>
          if 0 ≤ ix ∧ ix < img.width ∧ 0 ≤ iy ∧ iy < img.height ∧ fill.isSome
          then img.putpixel (ix, iy) (fill.getD 0)
          else .ok img) img) img

/-- The `while True` Bresenham walk of `_Draw.line` for one segment. -/
def lineWalk (img : Image) (w : Nat) (fill : Option Int) (dx dy : ℚ)
    (sx sy : Int) (x1 y1 : ℚ) : Nat → ℚ → ℚ → ℚ → Except PyErr Image
  | 0, _, _, _ => .ok img
  | fuel + 1, x, y, err =>
    Except.bind (paintSquare img x y w fill) (fun img' =>
      if pyTrunc x = pyTrunc x1 ∧ pyTrunc y = pyTrunc y1 then .ok img'
      else
        let e2 := 2 * err
        let err' := if e2 ≥ dy then err + dy else err
        let x' := if e2 ≥ dy then x + (sx : ℚ) else x
        let err'' := if e2 ≤ dx then err' + dx else err'
        let y' := if e2 ≤ dx then y + (sy : ℚ) else y
        lineWalk img' w fill dx dy sx sy x1 y1 fuel x' y' err'')

/-- One `start, end` segment of `_Draw.line`. -/
def lineSeg (fuel : Nat) (img : Image) (p0 p1 : ℚ × ℚ) (fill : Option Int)
    (w : Nat) : Except PyErr Image :=
  let x0 := p0.1; let y0 := p0.2; let x1 := p1.1; let y1 := p1.2
  let dx := |x1 - x0|
  let dy := -|y1 - y0|
  let sx : Int := if x0 < x1 then 1 else -1
  let sy : Int := if y0 < y1 then 1 else -1
  lineWalk img w fill dx dy sx sy x1 y1 fuel x0 y0 (dx + dy)

/-- `_Draw.line(coordinates, fill, width)` on an explicit point list. -/
def line (fuel : Nat) (img : Image) (points : List (ℚ × ℚ))
    (fill : Option Int) (width : Int) : Except PyErr Image :=
  let w := (max 1 width).toNat
  (points.zip points.tail).foldlM
    (fun img pq => lineSeg fuel img pq.1 pq.2 fill w) img

/-- `_Draw.rectangle(bounding_box, fill, outline, width)` (4-tuple form). -/
def rectangle (fuel : Nat) (img : Image) (box : ℚ × ℚ × ℚ × ℚ)
    (fill outline : Option Int) (width : Int) : Except PyErr Image :=
  let x0 := box.1; let y0 := box.2.1; let x1 := box.2.2.1; let y1 := box.2.2.2
  Except.bind
    (match fill with
      | some f =>
        (intRange ⌊y0⌋ (⌈y1⌉ + 1)).foldlM (fun img y =>
          if 0 ≤ y ∧ y < img.height then
            (intRange ⌊x0⌋ (⌈x1⌉ + 1)).foldlM (fun img x =>
              if 0 ≤ x ∧ x < img.width then img.putpixel (x, y) f
              else .ok img) img
          else .ok img) img
      | none => .ok img)
    (fun img =>
      match outline with
      | some o =>
        Except.bind (line fuel img [(x0, y0), (x1, y0)] (some o) width) (fun img =>
          Except.bind (line fuel img [(x1, y0), (x1, y1)] (some o) width) (fun img =>
            Except.bind (line fuel img [(x0, y1), (x1, y1)] (some o) width)
              (fun img => line fuel img [(x0, y0), (x0, y1)] (some o) width)))
      | none => .ok img)

/-- `_Draw.text(position, text, font=font, fill=fill)`. -/
def textBox (img : Image) (pos : ℚ × ℚ) (text : String)
    (font : Option ImageFont) (fill : Option Int) : Except PyErr Image :=
  let f := font.getD loadDefault
  let x := pos.1; let y := pos.2
  let bbox := f.getbbox text
  let w := bbox.2.2.1 - bbox.1
  let h := bbox.2.2.2 - bbox.2.1
  (intRange (pyTrunc y) (pyTrunc (y + (h : ℚ)))).foldlM (fun img yi =>
    if 0 ≤ yi ∧ yi < img.height then
      (intRange (pyTrunc x) (pyTrunc (x + (w : ℚ)))).foldlM (fun img xi =>
        if 0 ≤ xi ∧ xi < img.width ∧ fill.isSome
        then img.putpixel (xi, yi) (fill.getD 0)
        else .ok img) img
    else .ok img) img

/-! ## Text primitives for the graymap codec -/

/-- Python `str.isspace` on a single character code (ASCII whitespace). -/
def isSpaceByte (b : Nat) : Bool :=
  b = 32 || b = 9 || b = 10 || b = 13 || b = 11 || b = 12

/-- Python `str.strip()`. -/
def pyStrip (s : List Nat) : List Nat :=
  ((s.dropWhile isSpaceByte).reverse.dropWhile isSpaceByte).reverse

/-- Python `str.split()` with no argument: split at whitespace and drop
the empty pieces, leaving the maximal non-whitespace runs. -/
def pySplitWs (s : List Nat) : List (List Nat) :=
  (s.splitOnP isSpaceByte).filter (fun t => !t.isEmpty)

/-- ASCII decimal digit test. -/
def isDigitByte (b : Nat) : Bool := 48 ≤ b && b ≤ 57

/-- Value of a list of ASCII digit bytes. -/
def digitsToNat (ds : List Nat) : Nat :=
  ds.foldl (fun acc d => acc * 10 + (d - 48)) 0

/-- The digit-run part of Python `int(s)`. -/
def pyIntCore (ds : List Nat) : Except PyErr Nat :=
  if ds ≠ [] ∧ ds.all isDigitByte then .ok (digitsToNat ds)
  else .error (.valueError "invalid literal for int() with base 10")

/-- Python `int(s)` for a decimal string: strip, optional sign, digits. -/
def pyInt (s : List Nat) : Except PyErr Int :=
  match pyStrip s with
  | [] => .error (.valueError "invalid literal for int() with base 10")
  | c :: ds =>
    if c = 45 then (pyIntCore ds).map (fun n => -(n : Int))
    else if c = 43 then (pyIntCore ds).map (fun n => (n : Int))
    else (pyIntCore (c :: ds)).map (fun n => (n : Int))

/-- Fuel-driven digit accumulator: prepends the decimal digits of `n`
(least significant processed first) onto `acc`.  Fuel `n + 1` always
suffices since the argument at least halves every step. -/
def natToDigitsCore : Nat → Nat → List Nat → List Nat
  | 0, _, acc => acc
  | fuel + 1, n, acc =>
    if n < 10 then (48 + n % 10) :: acc
    else natToDigitsCore fuel (n / 10) ((48 + n % 10) :: acc)

/-- Decimal digit bytes of a natural number (`str(n)` for `n ≥ 0`). -/
def natToDigitBytes (n : Nat) : List Nat :=
  natToDigitsCore (n + 1) n []

/-- Python `str(i)` for an integer, as character codes. -/
def intToBytes (i : Int) : List Nat :=
  if i < 0 then 45 :: natToDigitBytes (-i).toNat else natToDigitBytes i.toNat

/-- Python `" ".join(tokens)`. -/
def joinSpace (toks : List (List Nat)) : List Nat :=
  match toks with
  | [] => []
  | t :: ts => t ++ ts.flatMap (fun u => 32 :: u)

/-- Split a byte stream into text lines at LF bytes (Python text-mode
line iteration; a trailing empty segment is harmless to the parser). -/
def splitOn10 : List Nat → List (List Nat)
  | [] => [[]]
  | b :: rest =>
    if b = 10 then [] :: splitOn10 rest
    else
      match splitOn10 rest with
      | [] => [[b]]
      | l :: ls => (b :: l) :: ls

/-- `handle.readline()` on a cursor of remaining lines;
at EOF Python returns the empty string forever. -/
def readline : List (List Nat) → List Nat × List (List Nat)
  | [] => ([], [])
  | l :: ls => (l, ls)

/-- The `dims = readline().strip(); while dims.startswith("#"): ...` loop:
returns the first stripped non-comment line and the remaining cursor. -/
def skipComments : List (List Nat) → List Nat × List (List Nat)
  | [] => ([], [])
  | l :: ls =>
    let s := pyStrip l
    if s.head? = some 35 then skipComments ls else (s, ls)

/-! ## Binary primitives and CRC-32 -/

/-- Big-endian 4-byte encoding of `n < 2^32` (`struct.pack(">I", n)`). -/
def be32 (n : Nat) : List Nat :=
  [n / 2 ^ 24 % 256, n / 2 ^ 16 % 256, n / 2 ^ 8 % 256, n % 256]

/-- Big-endian value of exactly four bytes (`struct.unpack(">I", _)`). -/
def readBe32 : List Nat → Nat
  | [a, b, c, d] => ((a * 256 + b) * 256 + c) * 256 + d
  | _ => 0

/-- `struct.pack(">I", n)`: raises `struct.error` outside `[0, 2^32)`. -/
def structPackI (n : Int) : Except PyErr (List Nat) :=
  if 0 ≤ n ∧ n < 2 ^ 32 then .ok (be32 n.toNat) else .error .structError

/-- Modelled from the spec: one byte-step table entry of `zlib.crc32`
(the standard reflected CRC-32, polynomial `0xEDB88320`); `zlib` is a
library the repository calls but does not contain. -/
def crcTableEntry (n : Nat) : Nat :=
  (List.range 8).foldl
    (fun c _ => if c % 2 = 1 then Nat.xor 0xEDB88320 (c / 2) else c / 2) n

/-- Modelled from the spec: one byte update of the CRC-32 state. -/
def crc32Update (crc b : Nat) : Nat :=
  Nat.xor (crcTableEntry (Nat.xor crc b % 256)) (crc / 256)

/-- Modelled from the spec: `zlib.crc32(data)` — initial state `0xFFFFFFFF`,
bytewise update, final complement.  The chained call
`zlib.crc32(payload, zlib.crc32(type))` in the source equals
`crc32 (type ++ payload)`. -/
def crc32 (data : List Nat) : Nat :=
  Nat.xor (data.foldl crc32Update 0xFFFFFFFF) 0xFFFFFFFF

/-! ## The codecs (`Image.save`, `open`, `_open_png`, `_save_png`) -/

/-- The 8-byte PNG signature. -/
def pngSignature : List Nat := [137, 80, 78, 71, 13, 10, 26, 10]

/-- Chunk type tags as ASCII bytes. -/
def tIHDR : List Nat := [73, 72, 68, 82]

def tIDAT : List Nat := [73, 68, 65, 84]

def tIEND : List Nat := [73, 69, 78, 68]

/-- `_write_png_chunk(handle, chunk_type, data)`. -/
def writeChunk (ctype data : List Nat) : Except PyErr (List Nat) :=
  Except.bind (structPackI (data.length : Int)) (fun lenB =>
    Except.bind (structPackI ((crc32 (ctype ++ data) % 2 ^ 32 : Nat) : Int))
      (fun crcB => .ok (lenB ++ ctype ++ data ++ crcB)))

/-- The `IHDR` payload: `struct.pack(">IIBBBBB", w, h, 8, 0, 0, 0, 0)`. -/
def packIhdr (w h : Int) : Except PyErr (List Nat) :=
  Except.bind (structPackI w) (fun wB =>
    Except.bind (structPackI h) (fun hB =>
      .ok (wB ++ hB ++ [8, 0, 0, 0, 0])))

/-- The raw scanline payload: per row a filter byte 0 then clamped bytes. -/
def rawScanlines (img : Image) : List Nat :=
  img.pixels.flatMap (fun row => 0 :: row.map (fun v => (clampToByte v).toNat))

/-- `_save_png(image, handle)`, parameterized by `zlib.compress`. -/
def savePng (compress : List Nat → List Nat) (img : Image) :
    Except PyErr (List Nat) :=
  Except.bind (packIhdr img.width img.height) (fun ihdr =>
    Except.bind (writeChunk tIHDR ihdr) (fun c1 =>
      Except.bind (writeChunk tIDAT (compress (rawScanlines img))) (fun c2 =>
        Except.bind (writeChunk tIEND []) (fun c3 =>
          .ok (pngSignature ++ c1 ++ c2 ++ c3)))))

/-- The graymap branch of `Image.save`: `"P2"`, `"<w> <h>"`, `"255"`, then
one line of space-separated clamped values per row (`"P2"` is bytes
`[80, 50]`, `"255"` is `[50, 53, 53]`). -/
def saveGraymap (img : Image) : List Nat :=
  [80, 50, 10] ++ intToBytes img.width ++ [32] ++ intToBytes img.height ++ [10]
    ++ [50, 53, 53, 10]
    ++ img.pixels.flatMap
      (fun row => joinSpace (row.map (fun v => intToBytes (clampToByte v))) ++ [10])

/-- The graymap branch of module-level `open`, on the file's lines. -/
def openGraymap (fileLines : List (List Nat)) : Except PyErr Image :=
  let (headerLine, rest) := readline fileLines
  if pyStrip headerLine ≠ [80, 50] then
    .error (.valueError "Unsupported image format")
  else
    let (dims, rest) := skipComments rest
    match pySplitWs dims with
    | [wTok, hTok] => do
      let w ← pyInt wTok
      let h ← pyInt hTok
      let (maxLine, rest) := readline rest
      let maxv ← pyInt (pyStrip maxLine)
      if maxv ≠ 255 then .error (.valueError "Unsupported max value")
      else do
        let data ← (rest.flatMap pySplitWs).mapM pyInt
        if (data.length : Int) ≠ w * h then
          .error (.valueError "Unexpected pixel count")
        else
          .ok { mode := "L", width := w, height := h,
                pixels := (intRange 0 h).map
                  (fun i => pySlice data (i * w) ((i + 1) * w)) }
    | _ => .error (.valueError "not enough values to unpack")

/-- Decoder state of the `_open_png` chunk loop. -/
structure PngState where
  w : Option Nat
  h : Option Nat
  depth : Option Nat
  ctype : Option Nat
  idat : List Nat
  deriving DecidableEq, Repr

def initPngState : PngState := ⟨none, none, none, none, []⟩

/-- `struct.unpack(">IIBBBBB", data)`: fails unless `data` has 13 bytes. -/
def readIhdr (data : List Nat) :
    Except PyErr (Nat × Nat × Nat × Nat × Nat × Nat × Nat) :=
  match data with
  | [a, b, c, d, e, f, g, h, bd, ct, comp, filt, inter] =>
    .ok (readBe32 [a, b, c, d], readBe32 [e, f, g, h], bd, ct, comp, filt, inter)
  | _ => .error .structError

/-- The scanline row loop of `_open_png`: at `offset`, read a filter byte
(must be 0), then `w` pixel bytes, for each remaining row. -/
def parseRows (d : List Nat) (w : Nat) : Nat → Nat → Except PyErr (List (List Int))
  | _, 0 => .ok []
  | offset, hh + 1 =>
    if d.getD offset 0 ≠ 0 then .error (.valueError "Unsupported PNG filter type")
    else do
      let rest ← parseRows d w (offset + 1 + w) hh
      .ok ((((d.drop (offset + 1)).take w).map Int.ofNat) :: rest)

/-- The post-`IEND` scanline phase of `_open_png`: the decompressed length
must be exactly `(width + 1) * height`, then the row loop runs. -/
def parseScanlines (w h : Nat) (d : List Nat) : Except PyErr (List (List Int)) :=
  if d.length ≠ (w + 1) * h then .error (.valueError "Unexpected PNG data length")
  else parseRows d w 0 h

/-- What `_open_png` does after breaking on `IEND`. -/
def finishPng (decompress : List Nat → Except PyErr (List Nat)) (st : PngState) :
    Except PyErr Image :=
  match st.w, st.h, st.depth, st.ctype with
  | some w, some h, some _, some _ =>
    Except.bind (decompress st.idat) (fun d =>
      Except.bind (parseScanlines w h d) (fun rows =>
        .ok { mode := "L", width := (w : Int), height := (h : Int),
              pixels := rows }))
  | _, _, _, _ => .error (.valueError "Incomplete PNG file")

/-- The chunk-reading loop of `_open_png`.  Each iteration consumes at
least 12 bytes, so fuel `bytes.length + 1` (as supplied by `openPng`)
can never run out; the fuel-0 branch is unreachable. -/
def openPngLoop (decompress : List Nat → Except PyErr (List Nat)) :
    Nat → PngState → List Nat → Except PyErr Image
  | 0, _, _ => .error (.valueError "png chunk loop fuel exhausted")
  | fuel + 1, st, bytes =>
    if bytes.length < 4 then .error (.valueError "Truncated PNG file")
    else
      let length := readBe32 (bytes.take 4)
      if bytes.length < 8 then .error (.valueError "Truncated PNG file")
      else
        let ctype := (bytes.drop 4).take 4
        if bytes.length < 8 + length then .error (.valueError "Truncated PNG file")
        else
          let data := (bytes.drop 8).take length
          if bytes.length < 12 + length then .error (.valueError "Truncated PNG file")
          else
            let crcStored := readBe32 ((bytes.drop (8 + length)).take 4)
            if crc32 (ctype ++ data) % 2 ^ 32 ≠ crcStored then
              .error (.valueError "Corrupted PNG file")
            else
              let rest := bytes.drop (12 + length)
              if ctype = tIHDR then
                match readIhdr data with
                | .error e => .error e
                | .ok (w, h, bd, ct, comp, filt, inter) =>
                  if bd ≠ 8 ∨ ct ≠ 0 then
                    .error (.valueError "Unsupported PNG color type")
                  else if comp ≠ 0 ∨ filt ≠ 0 ∨ inter ≠ 0 then
                    .error (.valueError "Unsupported PNG compression settings")
                  else
                    openPngLoop decompress fuel
                      { st with w := some w, h := some h,
                                depth := some bd, ctype := some ct } rest
              else if ctype = tIDAT then
                openPngLoop decompress fuel { st with idat := st.idat ++ data } rest
              else if ctype = tIEND then finishPng decompress st
              else openPngLoop decompress fuel st rest

/-- `_open_png(handle)` on the bytes following the signature. -/
def openPng (decompress : List Nat → Except PyErr (List Nat))
    (bytes : List Nat) : Except PyErr Image :=
  openPngLoop decompress (bytes.length + 1) initPngState bytes

/-- Module-level `open(path)` on the file's bytes: dispatch on the PNG
signature, otherwise reread the stream as the text graymap format. -/
def decode (decompress : List Nat → Except PyErr (List Nat))
    (bytes : List Nat) : Except PyErr Image :=
  if bytes.take 8 = pngSignature then openPng decompress (bytes.drop 8)
  else openGraymap (splitOn10 bytes)

/-- The `IHDR` payload bytes of a saved image. -/
def ihdrPayload (img : Image) : List Nat :=
  be32 img.width.toNat ++ be32 img.height.toNat ++ [8, 0, 0, 0, 0]

/-- The framed bytes of one chunk: length, type tag, payload, CRC-32. -/
def chunkB (t p : List Nat) : List Nat :=
  be32 p.length ++ t ++ p ++ be32 (crc32 (t ++ p) % 2 ^ 32)

/-- For each chunk of `savePng compress img`: the byte offset of its
4-byte type tag within the whole file, paired with the bytes of its type
tag followed by its payload (the region covered by the CRC). -/
def pngChunkRegions (compress : List Nat → List Nat) (img : Image) :
    List (Nat × List Nat) :=
  let comp := compress (rawScanlines img)
  [(12, tIHDR ++ ihdrPayload img), (37, tIDAT ++ comp),
    (49 + comp.length, tIEND)]

/-! ## Basic lemmas about the Python primitives -/

lemma set_get?_self {α : Type} {l : List α} {n : Nat} {a : α}
    (h : l[n]? = some a) : l.set n a = l := by
  have hlt : n < l.length := (List.getElem?_eq_some.mp h).1
  apply List.ext_getElem?
  intro m
  rw [List.getElem?_set]
  by_cases hm : n = m
  · subst hm
    simp [hlt, ← h]
  · simp [hm]

lemma pyNormIdx_of_inb {len : Nat} {i : Int} (h0 : 0 ≤ i)
    (h1 : i < (len : Int)) : pyNormIdx len i = some i.toNat := by
  unfold pyNormIdx
  have hni : ¬ i < 0 := by omega
  simp only [hni, if_false]
  exact if_pos ⟨h0, h1⟩

lemma pyNormIdx_of_wrap {len : Nat} {i : Int} (h0 : -(len : Int) ≤ i)
    (h1 : i < 0) : pyNormIdx len i = some ((len : Int) + i).toNat := by
  unfold pyNormIdx
  simp only [h1, if_true]
  exact if_pos ⟨by omega, by omega⟩

lemma pyNormIdx_none_of_oob {len : Nat} {i : Int}
    (h : (len : Int) ≤ i ∨ i < -(len : Int)) : pyNormIdx len i = none := by
  unfold pyNormIdx
  by_cases hi : i < 0 <;> simp only [hi, if_true, if_false] <;>
    rw [if_neg (by omega)]

lemma wf_pixels_length {img : Image} (h : img.wf) :
    img.pixels.length = img.height.toNat := by
  have := congrArg List.length h.2.2
  simpa using this

lemma wf_row_length {img : Image} (h : img.wf) {j : Nat} {row : List Int}
    (hj : img.pixels[j]? = some row) : row.length = img.width.toNat := by
  have h1 : (img.pixels.map List.length)[j]? = some row.length := by
    rw [List.getElem?_map, hj]; rfl
  rw [h.2.2, List.getElem?_replicate] at h1
  split at h1
  · exact (Option.some_inj.mp h1).symm
  · cases h1

/-- A successful `putpixel` with nonnegative in-bounds coordinates:
the shape of the result and the cells it holds. -/
lemma putpixel_ok {img : Image} (hwf : img.wf) {x y : Int} (hx0 : 0 ≤ x)
    (hx : x < img.width) (hy0 : 0 ≤ y) (hy : y < img.height) (v : Int) :
    ∃ row, img.pixels[y.toNat]? = some row ∧
      img.putpixel (x, y) v =
        .ok { img with pixels := img.pixels.set y.toNat (row.set x.toNat v) } := by
  have hplen : img.pixels.length = img.height.toNat := wf_pixels_length hwf
  have hyn : y.toNat < img.pixels.length := by omega
  have hrow : img.pixels[y.toNat]? = some img.pixels[y.toNat] :=
    List.getElem?_eq_some.mpr ⟨hyn, rfl⟩
  refine ⟨img.pixels[y.toNat], hrow, ?_⟩
  have hrl : (img.pixels[y.toNat]).length = img.width.toNat := wf_row_length hwf hrow
  have hA : pyNormIdx img.pixels.length y = some y.toNat :=
    pyNormIdx_of_inb hy0 (by omega)
  have hB : pyNormIdx (img.pixels[y.toNat]).length x = some x.toNat :=
    pyNormIdx_of_inb hx0 (by omega)
  simp only [Image.putpixel, hA]
  rw [List.get?_eq_getElem?, hrow]
  simp only [hB]

/-- Any successful `putpixel` preserves mode, dimensions and grid shape. -/
lemma putpixel_shape {img img' : Image} {pos : Int × Int} {v : Int}
    (h : img.putpixel pos v = .ok img') :
    img'.mode = img.mode ∧ img'.width = img.width ∧ img'.height = img.height ∧
      img'.pixels.map List.length = img.pixels.map List.length := by
  unfold Image.putpixel at h
  cases hA : pyNormIdx img.pixels.length pos.2 with
  | none => simp only [hA] at h; exact Except.noConfusion h
  | some j =>
    simp only [hA] at h
    cases hrow : img.pixels.get? j with
    | none => simp only [hrow] at h; exact Except.noConfusion h
    | some row =>
      simp only [hrow] at h
      cases hB : pyNormIdx row.length pos.1 with
      | none => simp only [hB] at h; exact Except.noConfusion h
      | some i =>
        simp only [hB, Except.ok.injEq] at h
        cases h
        refine ⟨rfl, rfl, rfl, ?_⟩
        rw [List.map_set, List.length_set]
        apply set_get?_self
        rw [List.getElem?_map, ← List.get?_eq_getElem?, hrow]
        rfl

lemma putpixel_wf {img img' : Image} {pos : Int × Int} {v : Int}
    (h : img.putpixel pos v = .ok img') (hwf : img.wf) : img'.wf := by
  obtain ⟨hm, hw, hh, hp⟩ := putpixel_shape h
  exact ⟨hw ▸ hwf.1, hh ▸ hwf.2.1, by rw [hp, hw, hh]; exact hwf.2.2⟩

/-- Cells of the image produced by an in-bounds `putpixel`. -/
lemma putpixel_cell {img img' : Image} (hwf : img.wf) {x y : Int}
    (hx0 : 0 ≤ x) (hx : x < img.width) (hy0 : 0 ≤ y) (hy : y < img.height)
    {v : Int} (h : img.putpixel (x, y) v = .ok img') :
    ∀ a b : Nat, cell img' a b =
      if a = x.toNat ∧ b = y.toNat then v else cell img a b := by
  obtain ⟨row, hrow, heq⟩ := putpixel_ok hwf hx0 hx hy0 hy v
  rw [heq] at h
  cases h
  intro a b
  unfold cell
  have hyn : y.toNat < img.pixels.length := (List.getElem?_eq_some.mp hrow).1
  have hrl : row.length = img.width.toNat := wf_row_length hwf hrow
  simp only [List.getD_eq_getElem?_getD]
  by_cases hb : b = y.toNat
  · subst hb
    rw [List.getElem?_set_self hyn, hrow]
    simp only [Option.getD_some]
    by_cases ha : a = x.toNat
    · subst ha
      rw [List.getElem?_set_self (by omega)]
      simp
    · rw [List.getElem?_set_ne (fun he => ha he.symm)]
      simp [ha, hrow]
  · rw [List.getElem?_set_ne (fun he => hb he.symm)]
    simp [hb]

/-- In-bounds `getpixel` returns the stored cell. -/
lemma getpixel_inb {img : Image} (hwf : img.wf) {x y : Int} (hx0 : 0 ≤ x)
    (hx : x < img.width) (hy0 : 0 ≤ y) (hy : y < img.height) :
    img.getpixel (x, y) = .ok (cell img x.toNat y.toNat) := by
  have hplen : img.pixels.length = img.height.toNat := wf_pixels_length hwf
  have hyn : y.toNat < img.pixels.length := by omega
  have hrow : img.pixels[y.toNat]? = some img.pixels[y.toNat] :=
    List.getElem?_eq_some.mpr ⟨hyn, rfl⟩
  have hrl : (img.pixels[y.toNat]).length = img.width.toNat := wf_row_length hwf hrow
  have hA : pyNormIdx img.pixels.length y = some y.toNat :=
    pyNormIdx_of_inb hy0 (by omega)
  have hB : pyNormIdx (img.pixels[y.toNat]).length x = some x.toNat :=
    pyNormIdx_of_inb hx0 (by omega)
  have hxn : x.toNat < (img.pixels[y.toNat]).length := by omega
  simp only [Image.getpixel, pyIndex, hA, bind, Except.bind]
  rw [List.get?_eq_getElem?, hrow]
  simp only [hB]
  rw [List.get?_eq_getElem?, List.getElem?_eq_some.mpr ⟨hxn, rfl⟩]
  unfold cell
  simp only [List.getD_eq_getElem?_getD, hrow]
  simp [List.getElem?_eq_some.mpr ⟨hxn, rfl⟩]

lemma pyNormIdx_some_lt {len : Nat} {i : Int} {j : Nat}
    (h : pyNormIdx len i = some j) : j < len := by
  by_cases hi : i < 0
  · simp only [pyNormIdx, hi, if_true] at h
    split at h
    · rename_i hc
      rw [Option.some_inj] at h
      omega
    · exact Option.noConfusion h
  · simp only [pyNormIdx, hi, if_false] at h
    split at h
    · rename_i hc
      rw [Option.some_inj] at h
      omega
    · exact Option.noConfusion h

lemma wf_mem_row_length {img : Image} (hwf : img.wf) {row : List Int}
    (h : row ∈ img.pixels) : row.length = img.width.toNat := by
  obtain ⟨i, hi⟩ := List.getElem?_of_mem h
  exact wf_row_length hwf hi

lemma pySlice_nil_of_start_ge {α : Type} (l : List α) {a : Int}
    (ha : (l.length : Int) ≤ a) (b : Int) : pySlice l a b = [] := by
  unfold pySlice pySliceBound
  have hnn : ¬ a < 0 := by omega
  have : min a.toNat l.length = l.length := by omega
  simp [hnn, this]

/-! ## C5: crop clamping -/

/-- C5 counterexample: cropping a 10×10 image with the box
`(20, 20, 30, 30)` (entirely outside the canvas) yields width and height
`-10`, not a `0×0` bitmap as the claim states. -/
theorem crop_fully_outside_not_zero :
    ((Image.new "L" 10 10 0).crop (20, 20, 30, 30)).width = -10 ∧
    ((Image.new "L" 10 10 0).crop (20, 20, 30, 30)).height = -10 ∧
    ¬(((Image.new "L" 10 10 0).crop (20, 20, 30, 30)).width = 0 ∧
      ((Image.new "L" 10 10 0).crop (20, 20, 30, 30)).height = 0) := by
  decide

/-- C5 (amended): `crop` clamps `left`/`upper` up to 0 and `right`/`lower`
down to width/height, never fails, and the result records width
`min width right - max 0 left` and height `min height lower - max 0 upper`
(possibly negative).  A box at or beyond the right edge yields only empty
rows; a box at or beyond the bottom edge yields an empty pixel grid. -/
theorem crop_clamping (img : Image) (hwf : img.wf) (l u r b : Int) :
    (img.crop (l, u, r, b)).mode = img.mode ∧
    (img.crop (l, u, r, b)).width = min img.width r - max 0 l ∧
    (img.crop (l, u, r, b)).height = min img.height b - max 0 u ∧
    (img.width ≤ l → ∀ row ∈ (img.crop (l, u, r, b)).pixels, row = []) ∧
    (img.height ≤ u → (img.crop (l, u, r, b)).pixels = []) := by
  refine ⟨rfl, rfl, rfl, ?_, ?_⟩
  · intro hl row hrow
    simp only [Image.crop, List.mem_map] at hrow
    obtain ⟨row₀, hmem, hro⟩ := hrow
    have hmem₀ : row₀ ∈ img.pixels := by
      unfold pySlice at hmem
      exact List.mem_of_mem_drop (List.mem_of_mem_take hmem)
    have hlen : row₀.length = img.width.toNat := wf_mem_row_length hwf hmem₀
    rw [← hro]
    apply pySlice_nil_of_start_ge
    have h0 : 0 ≤ img.width := hwf.1
    rw [hlen]
    omega
  · intro hu
    simp only [Image.crop]
    rw [pySlice_nil_of_start_ge]
    · rfl
    · have h0 : 0 ≤ img.height := hwf.2.1
      rw [wf_pixels_length hwf]
      omega

/-- Witness for `crop_clamping` at a concrete image and box. -/
theorem crop_clamping_witness :
    ((Image.new "L" 2 2 0).crop (5, 5, 7, 7)).mode = (Image.new "L" 2 2 0).mode ∧
    ((Image.new "L" 2 2 0).crop (5, 5, 7, 7)).width =
      min (Image.new "L" 2 2 0).width 7 - max 0 5 ∧
    ((Image.new "L" 2 2 0).crop (5, 5, 7, 7)).height =
      min (Image.new "L" 2 2 0).height 7 - max 0 5 ∧
    ((Image.new "L" 2 2 0).width ≤ 5 →
      ∀ row ∈ ((Image.new "L" 2 2 0).crop (5, 5, 7, 7)).pixels, row = []) ∧
    ((Image.new "L" 2 2 0).height ≤ 5 →
      ((Image.new "L" 2 2 0).crop (5, 5, 7, 7)).pixels = []) :=
  crop_clamping (Image.new "L" 2 2 0) (by decide) 5 5 7 7

/-! ## C6: pixel access bounds -/

/-- C6 counterexample: `getpixel((-1, 0))` on a 2×2 bitmap succeeds (Python
negative indices wrap), returning the last pixel of row 0, and
`putpixel((-1, 0), 9)` likewise succeeds — the claim says both must fail
for `x ∉ [0, width)`. -/
theorem pixel_access_negative_wraps :
    Image.getpixel ⟨"L", 2, 2, [[1, 2], [3, 4]]⟩ (-1, 0) = .ok 2 ∧
    Image.putpixel ⟨"L", 2, 2, [[1, 2], [3, 4]]⟩ (-1, 0) 9 =
      .ok ⟨"L", 2, 2, [[1, 9], [3, 4]]⟩ := by
  decide

/-- C6 (amended): `getpixel`/`putpixel` fail with `IndexError` when
`y ∉ [-height, height)`, or when `y` is valid but `x ∉ [-width, width)`
(Python indices in `[-len, 0)` wrap instead of failing); with nonnegative
in-bounds coordinates `putpixel` stores the raw integer without clamping
and `getpixel` returns the stored value. -/
theorem pixel_access_bounds (img : Image) (hwf : img.wf) (x y v : Int) :
    ((img.height ≤ y ∨ y < -img.height) →
      img.getpixel (x, y) = .error .indexError ∧
      img.putpixel (x, y) v = .error .indexError) ∧
    ((img.width ≤ x ∨ x < -img.width) → -img.height ≤ y → y < img.height →
      img.getpixel (x, y) = .error .indexError ∧
      img.putpixel (x, y) v = .error .indexError) ∧
    (0 ≤ x → x < img.width → 0 ≤ y → y < img.height →
      img.getpixel (x, y) = .ok (cell img x.toNat y.toNat) ∧
      ∃ img', img.putpixel (x, y) v = .ok img' ∧
        img'.getpixel (x, y) = .ok v) := by
  have hplen : img.pixels.length = img.height.toNat := wf_pixels_length hwf
  have hh0 : 0 ≤ img.height := hwf.2.1
  refine ⟨?_, ?_, ?_⟩
  · intro hy
    have hA : pyNormIdx img.pixels.length y = none := by
      apply pyNormIdx_none_of_oob
      rw [hplen]
      omega
    constructor
    · simp [Image.getpixel, pyIndex, hA, bind, Except.bind]
    · simp [Image.putpixel, hA]
  · intro hx hy0 hy1
    have hsome : ∃ j, pyNormIdx img.pixels.length y = some j := by
      by_cases hyneg : y < 0
      · exact ⟨_, pyNormIdx_of_wrap (by rw [hplen]; omega) hyneg⟩
      · exact ⟨_, pyNormIdx_of_inb (by omega) (by rw [hplen]; omega)⟩
    obtain ⟨j, hA⟩ := hsome
    have hj : j < img.pixels.length := pyNormIdx_some_lt hA
    have hrow : img.pixels[j]? = some img.pixels[j] :=
      List.getElem?_eq_some.mpr ⟨hj, rfl⟩
    have hrl : (img.pixels[j]).length = img.width.toNat := wf_row_length hwf hrow
    have hw0 : 0 ≤ img.width := hwf.1
    have hB : pyNormIdx (img.pixels[j]).length x = none := by
      apply pyNormIdx_none_of_oob
      rw [hrl]
      omega
    constructor
    · simp only [Image.getpixel, pyIndex, hA, bind, Except.bind]
      rw [List.get?_eq_getElem?, hrow]
      simp [hB]
    · simp only [Image.putpixel, hA]
      rw [List.get?_eq_getElem?, hrow]
      simp [hB]
  · intro hx0 hx1 hy0 hy1
    refine ⟨getpixel_inb hwf hx0 hx1 hy0 hy1, ?_⟩
    obtain ⟨row, hrow, heq⟩ := putpixel_ok hwf hx0 hx1 hy0 hy1 v
    refine ⟨_, heq, ?_⟩
    have hwf' : (Image.mk img.mode img.width img.height
        (img.pixels.set y.toNat (row.set x.toNat v))).wf := putpixel_wf heq hwf
    have hcells := putpixel_cell hwf hx0 hx1 hy0 hy1 heq
    rw [getpixel_inb hwf' hx0 hx1 hy0 hy1, hcells x.toNat y.toNat]
    simp

/-- Witness for `pixel_access_bounds`: an over-range column fails. -/
theorem pixel_access_bounds_witness :
    Image.getpixel ⟨"L", 2, 2, [[1, 2], [3, 4]]⟩ (5, 0) = .error .indexError ∧
    Image.putpixel ⟨"L", 2, 2, [[1, 2], [3, 4]]⟩ (5, 0) 7 = .error .indexError :=
  (pixel_access_bounds ⟨"L", 2, 2, [[1, 2], [3, 4]]⟩ (by decide) 5 0 7).2.1
    (by decide) (by decide) (by decide)

/-! ## C9: font metrics -/

/-- C9 counterexample: at size 6 on a one-character string the code widths
`max(1, int(3.6)) = 3`, while the claim's formula `max(1, round(3.6)) = 4`. -/
theorem font_metrics_not_round :
    ImageFont.getbbox ⟨6⟩ "A" = (0, 0, 3, 6) ∧
    specFontBbox 6 "A" = (0, 0, 4, 6) ∧
    ImageFont.getbbox ⟨6⟩ "A" ≠ specFontBbox 6 "A" := by
  have hlen : (("A" : String).length : ℚ) = 1 := by
    norm_num [show ("A" : String).length = 1 from rfl]
  have hval : ((("A" : String).length : ℚ)) * (((6 : Int) : ℚ)) * (6 / 10) = 18 / 5 := by
    rw [hlen]; norm_num
  have h1 : ImageFont.getbbox ⟨6⟩ "A" = (0, 0, 3, 6) := by
    unfold ImageFont.getbbox pyTrunc
    rw [hval, if_neg (by norm_num)]
    have hf : ⌊(18 / 5 : ℚ)⌋ = 3 := by
      rw [Int.floor_eq_iff] <;> norm_num
    rw [hf]
    simp only [Prod.mk.injEq]
    refine ⟨trivial, trivial, by omega, by omega⟩
  have h2 : specFontBbox 6 "A" = (0, 0, 4, 6) := by
    unfold specFontBbox
    rw [hval]
    have hr : round ((18 / 5 : ℚ)) = 4 := by
      norm_num [round_eq]
    rw [hr]
    simp only [Prod.mk.injEq]
    refine ⟨trivial, trivial, by omega, by omega⟩
  refine ⟨h1, h2, ?_⟩
  rw [h1, h2]
  decide

/-- C9 (amended): for nonnegative sizes the metrics function is pure and
returns `(0, 0, max(1, floor(len(text) * size * 0.6)), max(1, size))` —
the fractional width is truncated (`int(...)`), not rounded. -/
theorem font_metrics_box (f : ImageFont) (t : String) (hs : 0 ≤ f.size) :
    f.getbbox t =
      (0, 0, max 1 ⌊(t.length : ℚ) * (f.size : ℚ) * (6 / 10)⌋, max 1 f.size) := by
  unfold ImageFont.getbbox pyTrunc
  have hsq : (0 : ℚ) ≤ (f.size : ℚ) := by exact_mod_cast hs
  have h1 : (0 : ℚ) ≤ (t.length : ℚ) * (f.size : ℚ) * (6 / 10) := by positivity
  rw [if_neg (not_lt.mpr h1)]

/-- Witness for `font_metrics_box` at the default 10-point font. -/
theorem font_metrics_box_witness :
    ImageFont.getbbox ⟨10⟩ "ab" =
      (0, 0, max 1 ⌊(("ab" : String).length : ℚ) * ((10 : Int) : ℚ) * (6 / 10)⌋,
        max 1 10) :=
  font_metrics_box ⟨10⟩ "ab" (by decide)

/-! ## C4: graymap read validation -/

/-- Reduction of `openGraymap` through a well-formed header: what remains
depends only on the max value and the data tokens. -/
lemma openGraymap_reduce (header dims maxl : List Nat)
    (dataLines : List (List Nat)) {wTok hTok : List Nat} {w h m : Int}
    (hH : pyStrip header = [80, 50])
    (hc : ¬ (pyStrip dims).head? = some 35)
    (hsplit : pySplitWs (pyStrip dims) = [wTok, hTok])
    (hw : pyInt wTok = .ok w) (hh : pyInt hTok = .ok h)
    (hm : pyInt (pyStrip maxl) = .ok m) :
    openGraymap (header :: dims :: maxl :: dataLines) =
      if m ≠ 255 then .error (.valueError "Unsupported max value")
      else
        match (dataLines.flatMap pySplitWs).mapM pyInt with
        | .error e => .error e
        | .ok data =>
          if (data.length : Int) ≠ w * h then
            .error (.valueError "Unexpected pixel count")
          else
            .ok { mode := "L", width := w, height := h,
                  pixels := (intRange 0 h).map
                    (fun i => pySlice data (i * w) ((i + 1) * w)) } := by
  have hskip : skipComments (dims :: maxl :: dataLines) =
      (pyStrip dims, maxl :: dataLines) := by
    simp only [skipComments]
    rw [if_neg hc]
  simp only [openGraymap, readline, hskip, hH]
  rw [if_neg (by simp)]
  simp only [hsplit, hw, hh, hm, bind, Except.bind]
  by_cases hm255 : m = 255
  · subst hm255
    simp only [if_neg (by simp : ¬ (255 : Int) ≠ 255)]
    cases hdata : (dataLines.flatMap pySplitWs).mapM pyInt with
    | error e => rfl
    | ok data => rfl
  · rw [if_pos hm255, if_pos hm255]

/-- C4: graymap read validation — (1) a first line other than `"P2"` fails
with the unsupported-format error; (2) comment lines before the dimension
line are skipped; (3) a max value other than 255 fails with the
unsupported-max error; (4) a token count different from `width*height`
fails with the pixel-count error; (5) a matching count yields the grid of
row-major slices of the token list. -/
theorem graymap_read_validation :
    (∀ fileLines : List (List Nat),
      pyStrip (readline fileLines).1 ≠ [80, 50] →
      openGraymap fileLines = .error (.valueError "Unsupported image format")) ∧
    (∀ (header c : List Nat) (rest : List (List Nat)),
      (pyStrip c).head? = some 35 →
      openGraymap (header :: c :: rest) = openGraymap (header :: rest)) ∧
    (∀ (header dims maxl : List Nat) (dataLines : List (List Nat))
      (wTok hTok : List Nat) (w h m : Int),
      pyStrip header = [80, 50] →
      ¬ (pyStrip dims).head? = some 35 →
      pySplitWs (pyStrip dims) = [wTok, hTok] →
      pyInt wTok = .ok w → pyInt hTok = .ok h →
      pyInt (pyStrip maxl) = .ok m →
      (m ≠ 255 →
        openGraymap (header :: dims :: maxl :: dataLines) =
          .error (.valueError "Unsupported max value")) ∧
      (∀ data : List Int, m = 255 →
        (dataLines.flatMap pySplitWs).mapM pyInt = .ok data →
        ((data.length : Int) ≠ w * h →
          openGraymap (header :: dims :: maxl :: dataLines) =
            .error (.valueError "Unexpected pixel count")) ∧
        ((data.length : Int) = w * h →
          openGraymap (header :: dims :: maxl :: dataLines) =
            .ok { mode := "L", width := w, height := h,
                  pixels := (intRange 0 h).map
                    (fun i => pySlice data (i * w) ((i + 1) * w)) }))) := by
  refine ⟨?_, ?_, ?_⟩
  · intro fileLines hne
    rcases hrl : readline fileLines with ⟨hd, rest⟩
    rw [hrl] at hne
    simp only [openGraymap, hrl]
    rw [if_pos hne]
  · intro header c rest h35
    have hskip : skipComments (c :: rest) = skipComments rest := by
      simp only [skipComments]
      rw [if_pos h35]
    simp only [openGraymap, readline, hskip]
  · intro header dims maxl dataLines wTok hTok w h m hH hc hsplit hw hh hm
    have hred := openGraymap_reduce header dims maxl dataLines hH hc hsplit hw hh hm
    constructor
    · intro hm255
      rw [hred, if_pos hm255]
    · intro data hm255 hdata
      subst hm255
      rw [hred, if_neg (by simp)]
      simp only [hdata]
      constructor
      · intro hcount
        rw [if_pos hcount]
      · intro hcount
        rw [if_neg (by simp [hcount])]

/-- Witness for `graymap_read_validation`: a concrete bad max value and a
concrete good file. -/
theorem graymap_read_validation_witness :
    openGraymap [[80, 50], [50, 32, 50], [50, 53, 52]] =
      .error (.valueError "Unsupported max value") ∧
    openGraymap [[80, 50], [50, 32, 49], [50, 53, 53], [55, 32, 56]] =
      .ok { mode := "L", width := 2, height := 1,
            pixels := (intRange 0 1).map
              (fun i => pySlice [7, 8] (i * 2) ((i + 1) * 2)) } := by
  constructor
  · exact ((graymap_read_validation.2.2 [80, 50] [50, 32, 50] [50, 53, 52] []
      [50] [50] 2 2 254 (by decide) (by decide) (by decide) (by decide)
      (by decide) (by decide)).1 (by decide))
  · exact ((graymap_read_validation.2.2 [80, 50] [50, 32, 49] [50, 53, 53]
      [[55, 32, 56]] [50] [49] 2 1 255 (by decide) (by decide) (by decide)
      (by decide) (by decide) (by decide)).2 [7, 8] rfl (by decide)).2 (by decide)

/-! ## Rasterizer safety and frame lemmas -/

lemma shapeOf_eq_iff {a b : Image} : shapeOf a = shapeOf b ↔
    a.mode = b.mode ∧ a.width = b.width ∧ a.height = b.height ∧
    a.pixels.map List.length = b.pixels.map List.length := by
  simp [shapeOf, Prod.ext_iff]

lemma wf_of_shapeOf_eq {a b : Image} (h : shapeOf a = shapeOf b) (hb : b.wf) :
    a.wf := by
  obtain ⟨hm, hw, hh, hp⟩ := shapeOf_eq_iff.mp h
  exact ⟨hw ▸ hb.1, hh ▸ hb.2.1, by rw [hp, hw, hh]; exact hb.2.2⟩

lemma putpixelE {img : Image} (hwf : img.wf) {x y : Int} (hx0 : 0 ≤ x)
    (hx : x < img.width) (hy0 : 0 ≤ y) (hy : y < img.height) (v : Int) :
    ∃ img', img.putpixel (x, y) v = .ok img' ∧ shapeOf img' = shapeOf img := by
  obtain ⟨row, hrow, heq⟩ := putpixel_ok hwf hx0 hx hy0 hy v
  refine ⟨_, heq, ?_⟩
  obtain ⟨hm, hw, hh, hp⟩ := putpixel_shape heq
  exact shapeOf_eq_iff.mpr ⟨hm, hw, hh, hp⟩

lemma foldlM_shape {β : Type} {S : String × Int × Int × List Nat}
    {f : Image → β → Except PyErr Image}
    (hf : ∀ img b, shapeOf img = S → ∃ img', f img b = .ok img' ∧ shapeOf img' = S)
    (l : List β) :
    ∀ img, shapeOf img = S →
      ∃ img', l.foldlM f img = .ok img' ∧ shapeOf img' = S := by
  induction l with
  | nil =>
    intro img h
    exact ⟨img, by rw [List.foldlM_nil]; rfl, h⟩
  | cons a t ih =>
    intro img h
    obtain ⟨img1, h1, hs1⟩ := hf img a h
    obtain ⟨img2, h2, hs2⟩ := ih img1 hs1
    refine ⟨img2, ?_, hs2⟩
    rw [List.foldlM_cons, h1]
    simpa [bind, Except.bind] using h2

/-- Except-bind preserves the shape invariant. -/
lemma bindE {S : String × Int × Int × List Nat} {e : Except PyErr Image}
    {cont : Image → Except PyErr Image}
    (he : ∃ i, e = .ok i ∧ shapeOf i = S)
    (hc : ∀ i, shapeOf i = S → ∃ j, cont i = .ok j ∧ shapeOf j = S) :
    ∃ j, Except.bind e cont = .ok j ∧ shapeOf j = S := by
  obtain ⟨i, he1, hs⟩ := he
  rw [he1]
  exact hc i hs

lemma drawIf_shape {S : String × Int × Int × List Nat}
    (hwfS : ∀ i : Image, shapeOf i = S → i.wf)
    (c : Prop) [Decidable c] (img : Image) {x y : Int}
    (hx0 : 0 ≤ x) (hx : x < S.2.1) (hy0 : 0 ≤ y) (hy : y < S.2.2.1)
    (o : Option Int) (hs : shapeOf img = S) :
    ∃ i, drawIf c img (x, y) o = .ok i ∧ shapeOf i = S := by
  have hw : img.width = S.2.1 := by rw [← hs]; rfl
  have hh : img.height = S.2.2.1 := by rw [← hs]; rfl
  cases o with
  | none => exact ⟨img, rfl, hs⟩
  | some v =>
    by_cases hc : c
    · rw [drawIf, if_pos hc]
      obtain ⟨i, hi, hsh⟩ :=
        putpixelE (hwfS img hs) hx0 (by omega) hy0 (by omega) v
      exact ⟨i, hi, hsh.trans hs⟩
    · rw [drawIf, if_neg hc]
      exact ⟨img, rfl, hs⟩

lemma ellipse_shape (img : Image) (hwf : img.wf) (box : ℚ × ℚ × ℚ × ℚ)
    (fill outline : Option Int) (width : Int) :
    ∃ img', ellipse img box fill outline width = .ok img' ∧
      shapeOf img' = shapeOf img := by
  obtain ⟨x0, y0, x1, y1⟩ := box
  have hwfS : ∀ i : Image, shapeOf i = shapeOf img → i.wf :=
    fun i hi => wf_of_shapeOf_eq hi hwf
  simp only [ellipse]
  apply foldlM_shape ?_ _ img rfl
  intro img1 y hs1
  by_cases hy : y < 0 ∨ img1.height ≤ y
  · rw [if_pos hy]; exact ⟨img1, rfl, hs1⟩
  · rw [if_neg hy]
    push_neg at hy
    have hyS : y < (shapeOf img).2.2.1 := by
      have h1 := (shapeOf_eq_iff.mp hs1).2.2.1
      have h2 : (shapeOf img).2.2.1 = img.height := rfl
      have := hy.2
      omega
    apply foldlM_shape ?_ _ img1 hs1
    intro img2 x hs2
    by_cases hx : x < 0 ∨ img2.width ≤ x
    · rw [if_pos hx]; exact ⟨img2, rfl, hs2⟩
    · rw [if_neg hx]
      push_neg at hx
      have hxS : x < (shapeOf img).2.1 := by
        have h1 := (shapeOf_eq_iff.mp hs2).2.1
        have h2 : (shapeOf img).2.1 = img.width := rfl
        have := hx.2
        omega
      apply bindE
      · exact drawIf_shape hwfS _ img2 hx.1 hxS hy.1 hyS fill hs2
      · intro i hi
        exact drawIf_shape hwfS _ i hx.1 hxS hy.1 hyS outline hi

lemma paintSquare_shape {S : String × Int × Int × List Nat}
    (hwf0 : ∀ i : Image, shapeOf i = S → i.wf) (img : Image) (x y : ℚ)
    (w : Nat) (fill : Option Int) (hs : shapeOf img = S) :
    ∃ img', paintSquare img x y w fill = .ok img' ∧ shapeOf img' = S := by
  simp only [paintSquare]
  apply foldlM_shape ?_ _ img hs
  intro img1 ix hs1
  apply foldlM_shape ?_ _ img1 hs1
  intro img2 iy hs2
  by_cases hg : 0 ≤ ix ∧ ix < img2.width ∧ 0 ≤ iy ∧ iy < img2.height ∧ fill.isSome
  · rw [if_pos hg]
    obtain ⟨i3, h3, hsh⟩ :=
      putpixelE (hwf0 img2 hs2) hg.1 hg.2.1 hg.2.2.1 hg.2.2.2.1 (fill.getD 0)
    exact ⟨i3, h3, hsh.trans hs2⟩
  · rw [if_neg hg]
    exact ⟨img2, rfl, hs2⟩

lemma lineWalk_shape {S : String × Int × Int × List Nat}
    (hwf0 : ∀ i : Image, shapeOf i = S → i.wf) (w : Nat) (fill : Option Int)
    (dx dy : ℚ) (sx sy : Int) (x1 y1 : ℚ) :
    ∀ (fuel : Nat) (img : Image) (x y err : ℚ), shapeOf img = S →
      ∃ img', lineWalk img w fill dx dy sx sy x1 y1 fuel x y err = .ok img' ∧
        shapeOf img' = S := by
  intro fuel
  induction fuel with
  | zero => intro img x y err hs; exact ⟨img, rfl, hs⟩
  | succ n ih =>
    intro img x y err hs
    obtain ⟨img1, h1, hs1⟩ := paintSquare_shape hwf0 img x y w fill hs
    simp only [lineWalk, h1, Except.bind]
    by_cases hdone : pyTrunc x = pyTrunc x1 ∧ pyTrunc y = pyTrunc y1
    · rw [if_pos hdone]
      exact ⟨img1, rfl, hs1⟩
    · rw [if_neg hdone]
      exact ih img1 _ _ _ hs1

lemma lineSeg_shape {S : String × Int × Int × List Nat}
    (hwf0 : ∀ i : Image, shapeOf i = S → i.wf) (fuel : Nat) (img : Image)
    (p0 p1 : ℚ × ℚ) (fill : Option Int) (w : Nat) (hs : shapeOf img = S) :
    ∃ img', lineSeg fuel img p0 p1 fill w = .ok img' ∧ shapeOf img' = S := by
  simp only [lineSeg]
  exact lineWalk_shape hwf0 w fill _ _ _ _ _ _ fuel img _ _ _ hs

lemma line_shape (img : Image) (hwf : img.wf) (fuel : Nat)
    (points : List (ℚ × ℚ)) (fill : Option Int) (width : Int) :
    ∃ img', line fuel img points fill width = .ok img' ∧
      shapeOf img' = shapeOf img := by
  have hwf0 : ∀ i : Image, shapeOf i = shapeOf img → i.wf :=
    fun i hi => wf_of_shapeOf_eq hi hwf
  simp only [line]
  apply foldlM_shape ?_ _ img rfl
  intro img1 pq hs1
  exact lineSeg_shape hwf0 fuel img1 pq.1 pq.2 fill (max 1 width).toNat hs1

/-- A `line` call started from any image with the invariant shape keeps it. -/
lemma lineS {S : String × Int × Int × List Nat}
    (hwfS : ∀ i : Image, shapeOf i = S → i.wf) (fuel : Nat)
    (points : List (ℚ × ℚ)) (fill : Option Int) (width : Int)
    (img : Image) (hs : shapeOf img = S) :
    ∃ img', line fuel img points fill width = .ok img' ∧ shapeOf img' = S := by
  obtain ⟨i, hi, hsh⟩ :=
    line_shape img (hwfS img hs) fuel points fill width
  exact ⟨i, hi, hsh.trans hs⟩

lemma rectangle_shape (img : Image) (hwf : img.wf) (fuel : Nat)
    (box : ℚ × ℚ × ℚ × ℚ) (fill outline : Option Int) (width : Int) :
    ∃ img', rectangle fuel img box fill outline width = .ok img' ∧
      shapeOf img' = shapeOf img := by
  obtain ⟨x0, y0, x1, y1⟩ := box
  have hwfS : ∀ i : Image, shapeOf i = shapeOf img → i.wf :=
    fun i hi => wf_of_shapeOf_eq hi hwf
  simp only [rectangle]
  apply bindE
  · cases fill with
    | none => exact ⟨img, rfl, rfl⟩
    | some f =>
      dsimp only
      apply foldlM_shape ?_ _ img rfl
      intro img1 y hs1
      by_cases hy : 0 ≤ y ∧ y < img1.height
      · rw [if_pos hy]
        apply foldlM_shape ?_ _ img1 hs1
        intro img2 x hs2
        by_cases hx : 0 ≤ x ∧ x < img2.width
        · rw [if_pos hx]
          have hyb : y < img2.height := by
            have h1 := (shapeOf_eq_iff.mp hs1).2.2.1
            have h2 := (shapeOf_eq_iff.mp hs2).2.2.1
            omega
          obtain ⟨i3, h3, hsh⟩ :=
            putpixelE (hwfS img2 hs2) hx.1 hx.2 hy.1 hyb f
          exact ⟨i3, h3, hsh.trans hs2⟩
        · rw [if_neg hx]
          exact ⟨img2, rfl, hs2⟩
      · rw [if_neg hy]
        exact ⟨img1, rfl, hs1⟩
  · intro img1 hs1
    cases outline with
    | none => exact ⟨img1, rfl, hs1⟩
    | some o =>
      dsimp only
      apply bindE (lineS hwfS fuel _ _ _ img1 hs1)
      intro img2 hs2
      apply bindE (lineS hwfS fuel _ _ _ img2 hs2)
      intro img3 hs3
      apply bindE (lineS hwfS fuel _ _ _ img3 hs3)
      intro img4 hs4
      exact lineS hwfS fuel _ _ _ img4 hs4

lemma textBox_shape (img : Image) (hwf : img.wf) (pos : ℚ × ℚ) (text : String)
    (font : Option ImageFont) (fill : Option Int) :
    ∃ img', textBox img pos text font fill = .ok img' ∧
      shapeOf img' = shapeOf img := by
  have hwf0 : ∀ i : Image, shapeOf i = shapeOf img → i.wf :=
    fun i hi => wf_of_shapeOf_eq hi hwf
  simp only [textBox]
  apply foldlM_shape ?_ _ img rfl
  intro img1 yi hs1
  by_cases hy : 0 ≤ yi ∧ yi < img1.height
  · rw [if_pos hy]
    apply foldlM_shape ?_ _ img1 hs1
    intro img2 xi hs2
    by_cases hx : 0 ≤ xi ∧ xi < img2.width ∧ fill.isSome
    · rw [if_pos hx]
      have hyb : yi < img2.height := by
        have h1 := (shapeOf_eq_iff.mp hs1).2.2.1
        have h2 := (shapeOf_eq_iff.mp hs2).2.2.1
        omega
      obtain ⟨i3, h3, hsh⟩ :=
        putpixelE (hwf0 img2 hs2) hx.1 hx.2.1 hy.1 hyb (fill.getD 0)
      exact ⟨i3, h3, hsh.trans hs2⟩
    · rw [if_neg hx]
      exact ⟨img2, rfl, hs2⟩
  · rw [if_neg hy]
    exact ⟨img1, rfl, hs1⟩

/-! ## C7: rasterizer clipping safety -/

/-- C7: on a well-formed bitmap no drawing operation ever fails — pixels
outside the canvas are silently skipped (the out-of-bounds guards in the
code make every `putpixel` in-bounds), for arbitrary finite parameters,
on-canvas or off-canvas.  The `fuel` argument of `line`/`rectangle`
covers every finite prefix of the Bresenham walk, whose Python original
need not terminate; no iteration can fail. -/
theorem rasterizer_never_raises (img : Image) (hwf : img.wf) :
    (∀ (fuel : Nat) (points : List (ℚ × ℚ)) (fill : Option Int) (width : Int),
      ∃ img', line fuel img points fill width = .ok img') ∧
    (∀ (fuel : Nat) (box : ℚ × ℚ × ℚ × ℚ) (fill outline : Option Int)
      (width : Int),
      ∃ img', rectangle fuel img box fill outline width = .ok img') ∧
    (∀ (box : ℚ × ℚ × ℚ × ℚ) (fill outline : Option Int) (width : Int),
      ∃ img', ellipse img box fill outline width = .ok img') ∧
    (∀ (pos : ℚ × ℚ) (text : String) (font : Option ImageFont)
      (fill : Option Int),
      ∃ img', textBox img pos text font fill = .ok img') := by
  refine ⟨?_, ?_, ?_, ?_⟩
  · intro fuel points fill width
    obtain ⟨i, h, _⟩ := line_shape img hwf fuel points fill width
    exact ⟨i, h⟩
  · intro fuel box fill outline width
    obtain ⟨i, h, _⟩ := rectangle_shape img hwf fuel box fill outline width
    exact ⟨i, h⟩
  · intro box fill outline width
    obtain ⟨i, h, _⟩ := ellipse_shape img hwf box fill outline width
    exact ⟨i, h⟩
  · intro pos text font fill
    obtain ⟨i, h, _⟩ := textBox_shape img hwf pos text font fill
    exact ⟨i, h⟩

/-- Witness for `rasterizer_never_raises`: a partially off-canvas line,
rectangle, ellipse and text box on a concrete 3×3 bitmap. -/
theorem rasterizer_never_raises_witness :
    (∃ img', line 9 (Image.new "L" 3 3 0) [(-5, -5), (9, 9)] (some 1) 1 =
      .ok img') ∧
    (∃ img', ellipse (Image.new "L" 3 3 0) (-4, -4, 9, 9) (some 1) (some 2) 1 =
      .ok img') :=
  ⟨(rasterizer_never_raises (Image.new "L" 3 3 0) (by decide)).1 9
      [(-5, -5), (9, 9)] (some 1) 1,
    (rasterizer_never_raises (Image.new "L" 3 3 0) (by decide)).2.2.1
      (-4, -4, 9, 9) (some 1) (some 2) 1⟩

/-! ## C10: drawing frame property -/

/-- C10: every successful drawing operation preserves the bitmap's mode,
width and height fields and the shape of the pixel grid (row count and
every row length); only in-bounds pixel values can change. -/
theorem rasterizer_frame (img : Image) (hwf : img.wf) (img' : Image)
    (hop :
      (∃ (fuel : Nat) (points : List (ℚ × ℚ)) (fill : Option Int) (width : Int),
        line fuel img points fill width = .ok img') ∨
      (∃ (fuel : Nat) (box : ℚ × ℚ × ℚ × ℚ) (fill outline : Option Int)
        (width : Int), rectangle fuel img box fill outline width = .ok img') ∨
      (∃ (box : ℚ × ℚ × ℚ × ℚ) (fill outline : Option Int) (width : Int),
        ellipse img box fill outline width = .ok img') ∨
      (∃ (pos : ℚ × ℚ) (text : String) (font : Option ImageFont)
        (fill : Option Int), textBox img pos text font fill = .ok img')) :
    img'.mode = img.mode ∧ img'.width = img.width ∧ img'.height = img.height ∧
      img'.pixels.map List.length = img.pixels.map List.length := by
  have hsh : shapeOf img' = shapeOf img := by
    rcases hop with ⟨fuel, points, fill, width, h⟩ |
      ⟨fuel, box, fill, outline, width, h⟩ | ⟨box, fill, outline, width, h⟩ |
      ⟨pos, text, font, fill, h⟩
    · obtain ⟨i, hi, hs⟩ := line_shape img hwf fuel points fill width
      rw [h] at hi
      cases hi
      exact hs
    · obtain ⟨i, hi, hs⟩ := rectangle_shape img hwf fuel box fill outline width
      rw [h] at hi
      cases hi
      exact hs
    · obtain ⟨i, hi, hs⟩ := ellipse_shape img hwf box fill outline width
      rw [h] at hi
      cases hi
      exact hs
    · obtain ⟨i, hi, hs⟩ := textBox_shape img hwf pos text font fill
      rw [h] at hi
      cases hi
      exact hs
  exact shapeOf_eq_iff.mp hsh

/-- Witness for `rasterizer_frame`: the empty polyline leaves a concrete
bitmap unchanged, so the frame conclusion holds for it. -/
theorem rasterizer_frame_witness :
    (Image.new "L" 2 2 0).mode = (Image.new "L" 2 2 0).mode ∧
    (Image.new "L" 2 2 0).width = (Image.new "L" 2 2 0).width ∧
    (Image.new "L" 2 2 0).height = (Image.new "L" 2 2 0).height ∧
    (Image.new "L" 2 2 0).pixels.map List.length =
      (Image.new "L" 2 2 0).pixels.map List.length :=
  rasterizer_frame (Image.new "L" 2 2 0) (by decide) (Image.new "L" 2 2 0)
    (Or.inl ⟨0, [], none, 1, rfl⟩)

/-! ## C8: ellipse fill semantics -/

lemma mem_intRange {a b k : Int} : k ∈ intRange a b ↔ a ≤ k ∧ k < b := by
  simp only [intRange, List.mem_map, List.mem_range]
  constructor
  · rintro ⟨j, hj, rfl⟩
    omega
  · rintro ⟨h1, h2⟩
    exact ⟨(k - a).toNat, by omega, by omega⟩

lemma cell_new {m : String} {w h : Nat} {c : Int} {a b : Nat}
    (ha : a < w) (hb : b < h) : cell (Image.new m w h c) a b = c := by
  unfold cell Image.new
  simp [List.getD_eq_getElem?_getD, List.getElem?_replicate, ha, hb]

lemma drawIf_none {c : Prop} [Decidable c] {img : Image} {p : Int × Int} :
    drawIf c img p none = .ok img := rfl

lemma drawIf_some {c : Prop} [Decidable c] {img : Image} {p : Int × Int}
    {v : Int} : drawIf c img p (some v) = if c then img.putpixel p v else .ok img :=
  rfl

lemma except_bind_ok_fun {e : Except PyErr Image} :
    Except.bind e (fun i => (Except.ok i : Except PyErr Image)) = e := by
  cases e <;> rfl

/-- One scanline of the fill-only ellipse loop: which cells it paints. -/
lemma ellipse_fill_row {img : Image} (hwf : img.wf) (cx cy rx ry : ℚ) (f : Int)
    (y : Int) (hy0 : 0 ≤ y) (hyH : y < img.height) :
    ∀ (xs : List Int) (img2 : Image), shapeOf img2 = shapeOf img →
      ∃ i, xs.foldlM (fun (img : Image) (x : Int) =>
          if x < 0 ∨ img.width ≤ x then .ok img
          else if (((x : ℚ) - cx) / rx) ^ 2 + (((y : ℚ) - cy) / ry) ^ 2 ≤ 1
            then img.putpixel (x, y) f else .ok img) img2 = .ok i ∧
        shapeOf i = shapeOf img ∧
        ∀ a b : Nat, a < img.width.toNat → b < img.height.toNat →
          cell i a b = if (a : Int) ∈ xs ∧ b = y.toNat ∧
              ((((a : Nat) : ℚ) - cx) / rx) ^ 2 + (((y : ℚ) - cy) / ry) ^ 2 ≤ 1
            then f else cell img2 a b := by
  intro xs
  induction xs with
  | nil =>
    intro img2 hs
    refine ⟨img2, by rw [List.foldlM_nil]; rfl, hs, ?_⟩
    intro a b _ _
    simp
  | cons x xs ih =>
    intro img2 hs
    have hw2 : img2.width = img.width := (shapeOf_eq_iff.mp hs).2.1
    have hh2 : img2.height = img.height := (shapeOf_eq_iff.mp hs).2.2.1
    rw [List.foldlM_cons]
    by_cases hg : x < 0 ∨ img2.width ≤ x
    · rw [if_pos hg]
      obtain ⟨i, hfold, hsi, hchar⟩ := ih img2 hs
      refine ⟨i, by simpa [bind, Except.bind] using hfold, hsi, ?_⟩
      intro a b ha hb
      rw [hchar a b ha hb]
      have hax : ¬ (a : Int) = x := by omega
      refine if_congr ?_ rfl rfl
      simp [List.mem_cons, hax]
    · rw [if_neg hg]
      push_neg at hg
      have hyb2 : y < img2.height := by omega
      by_cases hval : (((x : ℚ) - cx) / rx) ^ 2 + (((y : ℚ) - cy) / ry) ^ 2 ≤ 1
      · rw [if_pos hval]
        have hwf2 : img2.wf := wf_of_shapeOf_eq hs hwf
        obtain ⟨row, hrow, heq⟩ := putpixel_ok hwf2 hg.1 hg.2 hy0 hyb2 f
        have hcell3 := putpixel_cell hwf2 hg.1 hg.2 hy0 hyb2 heq
        have hs3 : shapeOf (Image.mk img2.mode img2.width img2.height
            (img2.pixels.set y.toNat (row.set x.toNat f))) = shapeOf img := by
          obtain ⟨hm, hw, hh, hp⟩ := putpixel_shape heq
          exact (shapeOf_eq_iff.mpr ⟨hm, hw, hh, hp⟩).trans hs
        obtain ⟨i, hfold, hsi, hchar⟩ := ih _ hs3
        refine ⟨i, by rw [heq]; simpa [bind, Except.bind] using hfold, hsi, ?_⟩
        intro a b ha hb
        rw [hchar a b ha hb, hcell3 a b]
        by_cases hby : b = y.toNat
        · by_cases haxm : (a : Int) = x
          · have haxn : a = x.toNat := by omega
            have hcast : ((a : Nat) : ℚ) = ((x : Int) : ℚ) := by
              rw [← haxm]
              push_cast
              ring
            have hvA : ((((a : Nat) : ℚ) - cx) / rx) ^ 2 +
                (((y : ℚ) - cy) / ry) ^ 2 ≤ 1 := by rw [hcast]; exact hval
            rw [if_pos (show (a : Int) ∈ x :: xs ∧ b = y.toNat ∧ _ from
              ⟨List.mem_cons.mpr (Or.inl haxm), hby, hvA⟩)]
            by_cases hmx : (a : Int) ∈ xs
            · rw [if_pos ⟨hmx, hby, hvA⟩]
            · rw [if_neg (fun hc => hmx hc.1), if_pos ⟨haxn, hby⟩]
          · have haxn : ¬ a = x.toNat := by omega
            rw [show (if a = x.toNat ∧ b = y.toNat then f else cell img2 a b) =
              cell img2 a b from if_neg (fun hc => haxn hc.1)]
            refine if_congr ?_ rfl rfl
            simp [List.mem_cons, haxm]
        · rw [show (if a = x.toNat ∧ b = y.toNat then f else cell img2 a b) =
            cell img2 a b from if_neg (fun hc => hby hc.2)]
          refine if_congr ?_ rfl rfl
          simp [List.mem_cons, hby]
      · rw [if_neg hval]
        obtain ⟨i, hfold, hsi, hchar⟩ := ih img2 hs
        refine ⟨i, by simpa [bind, Except.bind] using hfold, hsi, ?_⟩
        intro a b ha hb
        rw [hchar a b ha hb]
        by_cases haxm : (a : Int) = x
        · have hcast : ((a : Nat) : ℚ) = ((x : Int) : ℚ) := by
            rw [← haxm]
            push_cast
            ring
          have hvA : ¬ (((((a : Nat) : ℚ) - cx) / rx) ^ 2 +
              (((y : ℚ) - cy) / ry) ^ 2 ≤ 1) := by rw [hcast]; exact hval
          rw [if_neg (fun hc => hvA hc.2.2), if_neg (fun hc => hvA hc.2.2)]
        · refine if_congr ?_ rfl rfl
          simp [List.mem_cons, haxm]

/-- The full fill-only ellipse double loop: which cells it paints. -/
lemma ellipse_fill_rows {img : Image} (hwf : img.wf) (cx cy rx ry : ℚ)
    (f : Int) (xs : List Int) :
    ∀ (ys : List Int) (img1 : Image), shapeOf img1 = shapeOf img →
      ∃ i, ys.foldlM (fun (img0 : Image) (y : Int) =>
          if y < 0 ∨ img0.height ≤ y then .ok img0
          else xs.foldlM (fun (img : Image) (x : Int) =>
            if x < 0 ∨ img.width ≤ x then .ok img
            else if (((x : ℚ) - cx) / rx) ^ 2 + (((y : ℚ) - cy) / ry) ^ 2 ≤ 1
              then img.putpixel (x, y) f else .ok img) img0) img1 = .ok i ∧
        shapeOf i = shapeOf img ∧
        ∀ a b : Nat, a < img.width.toNat → b < img.height.toNat →
          cell i a b = if (b : Int) ∈ ys ∧ (a : Int) ∈ xs ∧
              ((((a : Nat) : ℚ) - cx) / rx) ^ 2 +
                ((((b : Nat) : ℚ) - cy) / ry) ^ 2 ≤ 1
            then f else cell img1 a b := by
  intro ys
  induction ys with
  | nil =>
    intro img1 hs
    refine ⟨img1, by rw [List.foldlM_nil]; rfl, hs, ?_⟩
    intro a b _ _
    simp
  | cons y ys ih =>
    intro img1 hs
    have hh1 : img1.height = img.height := (shapeOf_eq_iff.mp hs).2.2.1
    rw [List.foldlM_cons]
    by_cases hg : y < 0 ∨ img1.height ≤ y
    · rw [if_pos hg]
      obtain ⟨i, hfold, hsi, hchar⟩ := ih img1 hs
      refine ⟨i, by simpa [bind, Except.bind] using hfold, hsi, ?_⟩
      intro a b ha hb
      rw [hchar a b ha hb]
      have hby : ¬ (b : Int) = y := by omega
      refine if_congr ?_ rfl rfl
      simp [List.mem_cons, hby]
    · rw [if_neg hg]
      push_neg at hg
      have hyH : y < img.height := by omega
      obtain ⟨img2, hrow, hs2, hrchar⟩ :=
        ellipse_fill_row hwf cx cy rx ry f y hg.1 hyH xs img1 hs
      obtain ⟨i, hfold, hsi, hchar⟩ := ih img2 hs2
      refine ⟨i, by rw [hrow]; simpa [bind, Except.bind] using hfold, hsi, ?_⟩
      intro a b ha hb
      rw [hchar a b ha hb, hrchar a b ha hb]
      by_cases hby : (b : Int) = y
      · have hbyn : b = y.toNat := by omega
        have hcast : ((b : Nat) : ℚ) = ((y : Int) : ℚ) := by
          rw [← hby]
          push_cast
          ring
        by_cases hmx : (a : Int) ∈ xs
        · by_cases hvA : ((((a : Nat) : ℚ) - cx) / rx) ^ 2 +
              ((((b : Nat) : ℚ) - cy) / ry) ^ 2 ≤ 1
          · have hvY : ((((a : Nat) : ℚ) - cx) / rx) ^ 2 +
                (((y : ℚ) - cy) / ry) ^ 2 ≤ 1 := by rw [← hcast]; exact hvA
            rw [if_pos (show (b : Int) ∈ y :: ys ∧ _ ∧ _ from
              ⟨List.mem_cons.mpr (Or.inl hby), hmx, hvA⟩)]
            by_cases hmy : (b : Int) ∈ ys
            · rw [if_pos ⟨hmy, hmx, hvA⟩]
            · rw [if_neg (fun hc => hmy hc.1), if_pos ⟨hmx, hbyn, hvY⟩]
          · have hvY : ¬ (((((a : Nat) : ℚ) - cx) / rx) ^ 2 +
                (((y : ℚ) - cy) / ry) ^ 2 ≤ 1) := by rw [← hcast]; exact hvA
            rw [if_neg (fun hc => hvA hc.2.2), if_neg (fun hc => hvY hc.2.2),
              if_neg (fun hc => hvA hc.2.2)]
        · rw [show (if (a : Int) ∈ xs ∧ b = y.toNat ∧
              ((((a : Nat) : ℚ) - cx) / rx) ^ 2 +
                (((y : ℚ) - cy) / ry) ^ 2 ≤ 1 then f else cell img1 a b) =
            cell img1 a b from if_neg (fun hc => hmx hc.1)]
          rw [if_neg (fun hc => hmx hc.2.1), if_neg (fun hc => hmx hc.2.1)]
      · have hbyn : ¬ b = y.toNat := by omega
        rw [show (if (a : Int) ∈ xs ∧ b = y.toNat ∧
            ((((a : Nat) : ℚ) - cx) / rx) ^ 2 +
              (((y : ℚ) - cy) / ry) ^ 2 ≤ 1 then f else cell img1 a b) =
          cell img1 a b from if_neg (fun hc => hbyn hc.2.1)]
        refine if_congr ?_ rfl rfl
        simp [List.mem_cons, hby]

/-- C8: `ellipse` with a fill color and no outline computes the center as
the box midpoint and the radii as half the box extents floored at 1, and
paints exactly the in-canvas integer pixels of the ceiling-expanded
bounding box whose normalized implicit value is ≤ 1; in particular, for
`ellipse((0,0,20,20), fill=1)` on a 21×21 zero canvas the center
`(10,10)` is painted and the corner `(0,0)` is not. -/
theorem ellipse_fill_semantics :
    (∀ (img : Image) (x0 y0 x1 y1 : ℚ) (f : Int) (width : Int), img.wf →
      ∃ img', ellipse img (x0, y0, x1, y1) (some f) none width = .ok img' ∧
        ∀ a b : Nat, a < img.width.toNat → b < img.height.toNat →
          cell img' a b =
            if ⌊y0⌋ ≤ (b : Int) ∧ (b : Int) ≤ ⌈y1⌉ ∧
                ⌊x0⌋ ≤ (a : Int) ∧ (a : Int) ≤ ⌈x1⌉ ∧
                ((((a : Nat) : ℚ) - (x0 + x1) / 2) / max 1 (|x1 - x0| / 2)) ^ 2 +
                  ((((b : Nat) : ℚ) - (y0 + y1) / 2) / max 1 (|y1 - y0| / 2)) ^ 2 ≤ 1
            then f else cell img a b) ∧
    (∀ img', ellipse (Image.new "L" 21 21 0) (0, 0, 20, 20) (some 1) none 1 =
        .ok img' →
      cell img' 10 10 = 1 ∧ cell img' 0 0 = 0) := by
  have main : ∀ (img : Image) (x0 y0 x1 y1 : ℚ) (f : Int) (width : Int), img.wf →
      ∃ img', ellipse img (x0, y0, x1, y1) (some f) none width = .ok img' ∧
        ∀ a b : Nat, a < img.width.toNat → b < img.height.toNat →
          cell img' a b =
            if ⌊y0⌋ ≤ (b : Int) ∧ (b : Int) ≤ ⌈y1⌉ ∧
                ⌊x0⌋ ≤ (a : Int) ∧ (a : Int) ≤ ⌈x1⌉ ∧
                ((((a : Nat) : ℚ) - (x0 + x1) / 2) / max 1 (|x1 - x0| / 2)) ^ 2 +
                  ((((b : Nat) : ℚ) - (y0 + y1) / 2) / max 1 (|y1 - y0| / 2)) ^ 2 ≤ 1
            then f else cell img a b := by
    intro img x0 y0 x1 y1 f width hwf
    simp only [ellipse, drawIf_none, except_bind_ok_fun, drawIf_some]
    obtain ⟨i, hfold, hsi, hchar⟩ :=
      ellipse_fill_rows hwf ((x0 + x1) / 2) ((y0 + y1) / 2)
        (max 1 (|x1 - x0| / 2)) (max 1 (|y1 - y0| / 2)) f
        (intRange ⌊x0⌋ (⌈x1⌉ + 1)) (intRange ⌊y0⌋ (⌈y1⌉ + 1)) img rfl
    refine ⟨i, hfold, ?_⟩
    intro a b ha hb
    rw [hchar a b ha hb]
    have hcondiff :
        ((b : Int) ∈ intRange ⌊y0⌋ (⌈y1⌉ + 1) ∧ (a : Int) ∈ intRange ⌊x0⌋ (⌈x1⌉ + 1) ∧
          ((((a : Nat) : ℚ) - (x0 + x1) / 2) / max 1 (|x1 - x0| / 2)) ^ 2 +
            ((((b : Nat) : ℚ) - (y0 + y1) / 2) / max 1 (|y1 - y0| / 2)) ^ 2 ≤ 1) ↔
        (⌊y0⌋ ≤ (b : Int) ∧ (b : Int) ≤ ⌈y1⌉ ∧
          ⌊x0⌋ ≤ (a : Int) ∧ (a : Int) ≤ ⌈x1⌉ ∧
          ((((a : Nat) : ℚ) - (x0 + x1) / 2) / max 1 (|x1 - x0| / 2)) ^ 2 +
            ((((b : Nat) : ℚ) - (y0 + y1) / 2) / max 1 (|y1 - y0| / 2)) ^ 2 ≤ 1) := by
      rw [mem_intRange, mem_intRange]
      constructor
      · rintro ⟨⟨h1, h2⟩, ⟨h3, h4⟩, h5⟩
        exact ⟨h1, by omega, h3, by omega, h5⟩
      · rintro ⟨h1, h2, h3, h4, h5⟩
        exact ⟨⟨h1, by omega⟩, ⟨h3, by omega⟩, h5⟩
    rw [if_congr hcondiff rfl rfl]
  refine ⟨main, ?_⟩
  intro img' hrun
  obtain ⟨i, hi, hchar⟩ :=
    main (Image.new "L" 21 21 0) 0 0 20 20 1 1 (by decide)
  rw [hrun] at hi
  cases hi
  constructor
  · rw [hchar 10 10 (by decide) (by decide)]
    rw [if_pos ?_]
    refine ⟨by norm_num, by norm_num, by norm_num, by norm_num, ?_⟩
    norm_num
  · rw [hchar 0 0 (by decide) (by decide)]
    rw [if_neg ?_, cell_new (by omega) (by omega)]
    intro hcond
    have h5 := hcond.2.2.2.2
    norm_num at h5

/-- Witness for `ellipse_fill_semantics`: the concrete 21×21 instance. -/
theorem ellipse_fill_semantics_witness :
    ∃ img', ellipse (Image.new "L" 21 21 0) (0, 0, 20, 20) (some 1) none 1 =
      .ok img' ∧ cell img' 10 10 = 1 ∧ cell img' 0 0 = 0 := by
  obtain ⟨i, hi, _⟩ :=
    ellipse_fill_semantics.1 (Image.new "L" 21 21 0) 0 0 20 20 1 1 (by decide)
  exact ⟨i, hi, ellipse_fill_semantics.2 i hi⟩

/-! ## Chunk-level lemmas about the PNG codec -/

lemma length_be32 (n : Nat) : (be32 n).length = 4 := by
  simp [be32]

lemma readBe32_be32 {n : Nat} (h : n < 2 ^ 32) : readBe32 (be32 n) = n := by
  simp only [be32, readBe32]
  omega

/-- Parsing one well-framed chunk: the loop checks its CRC (which matches
by construction), dispatches on the type tag, and continues with the
remaining bytes. -/
lemma openPngLoop_chunk (dec : List Nat → Except PyErr (List Nat)) (fuel : Nat)
    (st : PngState) (t p rest : List Nat) (ht : t.length = 4)
    (hp : p.length < 2 ^ 32) :
    openPngLoop dec (fuel + 1) st (chunkB t p ++ rest) =
      if t = tIHDR then
        match readIhdr p with
        | .error e => .error e
        | .ok (w, h, bd, ct, comp, filt, inter) =>
          if bd ≠ 8 ∨ ct ≠ 0 then .error (.valueError "Unsupported PNG color type")
          else if comp ≠ 0 ∨ filt ≠ 0 ∨ inter ≠ 0 then
            .error (.valueError "Unsupported PNG compression settings")
          else
            openPngLoop dec fuel
              { st with w := some w, h := some h,
                        depth := some bd, ctype := some ct } rest
      else if t = tIDAT then
        openPngLoop dec fuel { st with idat := st.idat ++ p } rest
      else if t = tIEND then finishPng dec st
      else openPngLoop dec fuel st rest := by
  have hcm : crc32 (t ++ p) % 2 ^ 32 < 2 ^ 32 := Nat.mod_lt _ (by norm_num)
  have hB : chunkB t p ++ rest =
      be32 p.length ++ (t ++ (p ++ (be32 (crc32 (t ++ p) % 2 ^ 32) ++ rest))) := by
    simp [chunkB]
  rw [hB]
  have h4 : (be32 p.length).length = 4 := length_be32 _
  have hlen : (be32 p.length ++
      (t ++ (p ++ (be32 (crc32 (t ++ p) % 2 ^ 32) ++ rest)))).length =
      12 + p.length + rest.length := by
    simp [length_be32, ht]
    omega
  have htake4 : (be32 p.length ++
      (t ++ (p ++ (be32 (crc32 (t ++ p) % 2 ^ 32) ++ rest)))).take 4 =
      be32 p.length := by
    rw [← h4]
    exact List.take_left _ _
  have hdrop4 : (be32 p.length ++
      (t ++ (p ++ (be32 (crc32 (t ++ p) % 2 ^ 32) ++ rest)))).drop 4 =
      t ++ (p ++ (be32 (crc32 (t ++ p) % 2 ^ 32) ++ rest)) := by
    rw [← h4]
    exact List.drop_left _ _
  have htype : ((be32 p.length ++
      (t ++ (p ++ (be32 (crc32 (t ++ p) % 2 ^ 32) ++ rest)))).drop 4).take 4 = t := by
    rw [hdrop4, ← ht]
    exact List.take_left _ _
  have hdrop8 : (be32 p.length ++
      (t ++ (p ++ (be32 (crc32 (t ++ p) % 2 ^ 32) ++ rest)))).drop 8 =
      p ++ (be32 (crc32 (t ++ p) % 2 ^ 32) ++ rest) := by
    rw [show (8 : Nat) = 4 + 4 from rfl, ← List.drop_drop, hdrop4, ← ht]
    exact List.drop_left _ _
  have hdata : ((be32 p.length ++
      (t ++ (p ++ (be32 (crc32 (t ++ p) % 2 ^ 32) ++ rest)))).drop 8).take
        p.length = p := by
    rw [hdrop8]
    exact List.take_left _ _
  have hdropc : (be32 p.length ++
      (t ++ (p ++ (be32 (crc32 (t ++ p) % 2 ^ 32) ++ rest)))).drop (8 + p.length) =
      be32 (crc32 (t ++ p) % 2 ^ 32) ++ rest := by
    rw [← List.drop_drop, hdrop8]
    exact List.drop_left _ _
  have hcrcb : ((be32 p.length ++
      (t ++ (p ++ (be32 (crc32 (t ++ p) % 2 ^ 32) ++ rest)))).drop
        (8 + p.length)).take 4 = be32 (crc32 (t ++ p) % 2 ^ 32) := by
    rw [hdropc, ← length_be32 (crc32 (t ++ p) % 2 ^ 32)]
    exact List.take_left _ _
  have hrest : (be32 p.length ++
      (t ++ (p ++ (be32 (crc32 (t ++ p) % 2 ^ 32) ++ rest)))).drop
        (12 + p.length) = rest := by
    rw [show 12 + p.length = (8 + p.length) + 4 by omega, ← List.drop_drop, hdropc,
      ← length_be32 (crc32 (t ++ p) % 2 ^ 32)]
    exact List.drop_left _ _
  simp only [openPngLoop, htake4, readBe32_be32 hp, htype, hdata, hcrcb,
    readBe32_be32 hcm, hrest]
  rw [if_neg (by omega), if_neg (by omega), if_neg (by omega), if_neg (by omega),
    if_neg (by simp)]

/-- A run of `IDAT` chunks followed by `IEND`: the loop accumulates the
payloads in arrival order and then finishes. -/
lemma openPngLoop_idats (dec : List Nat → Except PyErr (List Nat)) :
    ∀ (ps : List (List Nat)) (fuel : Nat) (st : PngState),
      (∀ p ∈ ps, p.length < 2 ^ 32) → ps.length < fuel →
      openPngLoop dec fuel st
          (ps.flatMap (fun p => chunkB tIDAT p) ++ chunkB tIEND []) =
        finishPng dec { st with idat := st.idat ++ ps.flatten } := by
  intro ps
  induction ps with
  | nil =>
    intro fuel st _ hfuel
    obtain ⟨f, rfl⟩ : ∃ f, fuel = f + 1 := ⟨fuel - 1, by omega⟩
    have h := openPngLoop_chunk dec f st tIEND [] [] (by decide) (by decide)
    simp only [List.flatMap_nil, List.nil_append, List.append_nil] at h ⊢
    rw [h, if_neg (by decide), if_neg (by decide), if_pos trivial]
    simp [List.flatten]
  | cons p ps ih =>
    intro fuel st hlt hfuel
    obtain ⟨f, rfl⟩ : ∃ f, fuel = f + 1 := ⟨fuel - 1, by omega⟩
    rw [List.flatMap_cons, List.append_assoc,
      openPngLoop_chunk dec f st tIDAT p _ (by decide)
        (hlt p (List.mem_cons_self _ _)),
      if_neg (by decide), if_pos rfl,
      ih f _ (fun q hq => hlt q (List.mem_cons_of_mem _ hq)) (by simpa using hfuel)]
    simp [List.append_assoc]

/-- The row loop succeeds when every filter byte is zero. -/
lemma parseRows_ok {d : List Nat} {w : Nat} :
    ∀ (hh offset : Nat), (∀ i, i < hh → d.getD (offset + i * (w + 1)) 0 = 0) →
      parseRows d w offset hh =
        .ok ((List.range hh).map (fun i =>
          ((d.drop (offset + i * (w + 1) + 1)).take w).map Int.ofNat)) := by
  intro hh
  induction hh with
  | zero => intro offset _; rfl
  | succ n ih =>
    intro offset h
    have h0 : d.getD offset 0 = 0 := by simpa using h 0 (Nat.succ_pos n)
    simp only [parseRows]
    rw [if_neg (by simpa using h0)]
    rw [ih (offset + 1 + w) ?_]
    · simp only [bind, Except.bind]
      congr 1
      rw [List.range_succ_eq_map]
      simp only [List.map_cons, List.map_map]
      congr 1
      · norm_num
      · apply List.map_congr_left
        intro i _
        simp only [Function.comp_apply, Nat.succ_eq_add_one]
        have harith : offset + 1 + w + i * (w + 1) + 1 =
            offset + (i + 1) * (w + 1) + 1 := by ring
        rw [harith]
    · intro i hi
      have hx := h (i + 1) (by omega)
      have harith : offset + (i + 1) * (w + 1) = offset + 1 + w + i * (w + 1) := by
        ring
      rw [harith] at hx
      exact hx

/-- The row loop fails with the filter error when some filter byte is
nonzero. -/
lemma parseRows_err {d : List Nat} {w : Nat} :
    ∀ (hh offset : Nat), (∃ i, i < hh ∧ d.getD (offset + i * (w + 1)) 0 ≠ 0) →
      parseRows d w offset hh =
        .error (.valueError "Unsupported PNG filter type") := by
  intro hh
  induction hh with
  | zero =>
    rintro offset ⟨i, hi, _⟩
    omega
  | succ n ih =>
    rintro offset ⟨i, hi, hne⟩
    simp only [parseRows]
    by_cases h0 : d.getD offset 0 ≠ 0
    · rw [if_pos (by simpa using h0)]
    · push_neg at h0
      rw [if_neg (by simpa using h0)]
      obtain ⟨j, rfl⟩ : ∃ j, i = j + 1 := by
        refine ⟨i - 1, ?_⟩
        rcases Nat.eq_zero_or_pos i with h | h
        · subst h
          simp only [Nat.zero_mul, Nat.add_zero] at hne
          exact absurd h0 hne
        · omega
      rw [ih (offset + 1 + w) ⟨j, by omega, ?_⟩]
      · rfl
      · have harith : offset + 1 + w + j * (w + 1) = offset + (j + 1) * (w + 1) := by
          ring
        rw [harith]
        exact hne

/-- C3: the scanline phase — (1) `_open_png` after `IEND` finishes on the
accumulated `IDAT` payloads, concatenated in arrival order, which
`finishPng` hands to `decompress`; (2) a decompressed length other than
`(width+1)*height` is the data-length error; with the right length, (3) a
nonzero filter byte is the unsupported-filter error and (4) all-zero
filter bytes yield the rows of `width` bytes following each filter byte. -/
theorem png_scanline_validation :
    (∀ (dec : List Nat → Except PyErr (List Nat)) (ps : List (List Nat))
      (fuel : Nat) (w h dep ct : Nat) (idat0 : List Nat),
      (∀ p ∈ ps, p.length < 2 ^ 32) → ps.length < fuel →
      openPngLoop dec fuel ⟨some w, some h, some dep, some ct, idat0⟩
          (ps.flatMap (fun p => chunkB tIDAT p) ++ chunkB tIEND []) =
        finishPng dec ⟨some w, some h, some dep, some ct, idat0 ++ ps.flatten⟩) ∧
    (∀ (w h : Nat) (d : List Nat), d.length ≠ (w + 1) * h →
      parseScanlines w h d = .error (.valueError "Unexpected PNG data length")) ∧
    (∀ (w h : Nat) (d : List Nat), d.length = (w + 1) * h →
      (∃ i, i < h ∧ d.getD (i * (w + 1)) 0 ≠ 0) →
      parseScanlines w h d = .error (.valueError "Unsupported PNG filter type")) ∧
    (∀ (w h : Nat) (d : List Nat), d.length = (w + 1) * h →
      (∀ i, i < h → d.getD (i * (w + 1)) 0 = 0) →
      parseScanlines w h d =
        .ok ((List.range h).map (fun i =>
          ((d.drop (i * (w + 1) + 1)).take w).map Int.ofNat))) := by
  refine ⟨?_, ?_, ?_, ?_⟩
  · intro dec ps fuel w h dep ct idat0 hlt hfuel
    exact openPngLoop_idats dec ps fuel _ hlt hfuel
  · intro w h d hne
    unfold parseScanlines
    rw [if_pos hne]
  · intro w h d hlen ⟨i, hi, hne⟩
    unfold parseScanlines
    rw [if_neg (by omega)]
    exact parseRows_err h 0 ⟨i, hi, by simpa using hne⟩
  · intro w h d hlen hz
    unfold parseScanlines
    rw [if_neg (by omega)]
    rw [parseRows_ok h 0 (fun i hi => by simpa using hz i hi)]
    simp

/-- Witness for `png_scanline_validation` at concrete inputs. -/
theorem png_scanline_validation_witness :
    parseScanlines 1 1 [] = .error (.valueError "Unexpected PNG data length") ∧
    parseScanlines 1 1 [3, 7] =
      .error (.valueError "Unsupported PNG filter type") ∧
    parseScanlines 1 1 [0, 7] =
      .ok ((List.range 1).map (fun i =>
        (([0, 7].drop (i * (1 + 1) + 1)).take 1).map Int.ofNat)) := by
  refine ⟨?_, ?_, ?_⟩
  · exact png_scanline_validation.2.1 1 1 [] (by decide)
  · exact png_scanline_validation.2.2.1 1 1 [3, 7] (by decide)
      ⟨0, by decide, by decide⟩
  · exact png_scanline_validation.2.2.2 1 1 [0, 7] (by decide)
      (fun i hi => by interval_cases i <;> decide)

/-! ## Text lemmas for the graymap round trip -/

/-- Digit-accumulator specification: enough fuel prepends the decimal
digit bytes of `n`, which are nonempty, all digits, and evaluate back to
`n` under the `int()` fold. -/
lemma natToDigitsCore_spec :
    ∀ (fuel n : Nat) (acc : List Nat), n < fuel →
      ∃ ds, natToDigitsCore fuel n acc = ds ++ acc ∧ ds ≠ [] ∧
        (∀ b ∈ ds, isDigitByte b = true) ∧
        (∀ a0 : Nat, ds.foldl (fun a d => a * 10 + (d - 48)) a0 =
          a0 * 10 ^ ds.length + n) := by
  intro fuel
  induction fuel with
  | zero => intro n acc h; omega
  | succ f ih =>
    intro n acc h
    by_cases h10 : n < 10
    · refine ⟨[48 + n % 10], ?_, by simp, ?_, ?_⟩
      · simp [natToDigitsCore, h10]
      · intro b hb
        simp only [List.mem_singleton] at hb
        subst hb
        simp only [isDigitByte, Bool.and_eq_true, decide_eq_true_eq]
        omega
      · intro a0
        simp only [List.foldl_cons, List.foldl_nil, List.length_singleton]
        omega
    · have hrec : n / 10 < f := by omega
      obtain ⟨ds, hds, hne, hdig, hval⟩ := ih (n / 10) ((48 + n % 10) :: acc) hrec
      refine ⟨ds ++ [48 + n % 10], ?_, by simp, ?_, ?_⟩
      · simp only [natToDigitsCore, if_neg h10]
        rw [hds, List.append_assoc, List.singleton_append]
      · intro b hb
        rcases List.mem_append.mp hb with hb | hb
        · exact hdig b hb
        · simp only [List.mem_singleton] at hb
          subst hb
          simp only [isDigitByte, Bool.and_eq_true, decide_eq_true_eq]
          omega
      · intro a0
        rw [List.foldl_append, hval a0]
        simp only [List.foldl_cons, List.foldl_nil, List.length_append,
          List.length_singleton]
        have : a0 * 10 ^ (ds.length + 1) = a0 * 10 ^ ds.length * 10 := by ring
        rw [this]
        omega

lemma natToDigitBytes_spec (n : Nat) :
    natToDigitBytes n ≠ [] ∧ (∀ b ∈ natToDigitBytes n, isDigitByte b = true) ∧
      digitsToNat (natToDigitBytes n) = n := by
  obtain ⟨ds, hds, hne, hdig, hval⟩ :=
    natToDigitsCore_spec (n + 1) n [] (Nat.lt_succ_self n)
  unfold natToDigitBytes
  rw [hds, List.append_nil]
  refine ⟨hne, hdig, ?_⟩
  unfold digitsToNat
  rw [hval 0]
  simp

lemma digit_not_space {b : Nat} (h : isDigitByte b = true) :
    isSpaceByte b = false := by
  simp only [isDigitByte, Bool.and_eq_true, decide_eq_true_eq] at h
  simp only [isSpaceByte, Bool.or_eq_false_iff, decide_eq_false_iff_not]
  omega

lemma dropWhile_eq_self_of_head {p : Nat → Bool} {s : List Nat}
    (h : ∀ b ∈ s.head?, p b = false) : s.dropWhile p = s := by
  cases s with
  | nil => rfl
  | cons c cs =>
    apply List.dropWhile_cons_of_neg
    simp [h c rfl]

lemma pyStrip_eq_self {s : List Nat}
    (h1 : ∀ b ∈ s.head?, isSpaceByte b = false)
    (h2 : ∀ b ∈ s.getLast?, isSpaceByte b = false) : pyStrip s = s := by
  unfold pyStrip
  rw [dropWhile_eq_self_of_head h1, dropWhile_eq_self_of_head
    (by rw [List.head?_reverse]; exact h2), List.reverse_reverse]

/-- A nonempty all-digit token is untouched by `strip`. -/
lemma pyStrip_digits {s : List Nat} (h : ∀ b ∈ s, isDigitByte b = true) :
    pyStrip s = s := by
  apply pyStrip_eq_self
  · intro b hb
    exact digit_not_space (h b (List.mem_of_mem_head? hb))
  · intro b hb
    have : b ∈ s := by
      rw [← List.head?_reverse] at hb
      exact (List.mem_reverse).mp (List.mem_of_mem_head? hb)
    exact digit_not_space (h b this)

lemma pyIntCore_digits {ds : List Nat} (hne : ds ≠ [])
    (h : ∀ b ∈ ds, isDigitByte b = true) :
    pyIntCore ds = .ok (digitsToNat ds) := by
  unfold pyIntCore
  rw [if_pos ⟨hne, List.all_eq_true.mpr h⟩]

/-- `int(str(n)) = n` for the digit printer. -/
lemma pyInt_natToDigitBytes (n : Nat) :
    pyInt (natToDigitBytes n) = .ok (n : Int) := by
  obtain ⟨hne, hdig, hval⟩ := natToDigitBytes_spec n
  unfold pyInt
  rw [pyStrip_digits hdig]
  obtain ⟨c, cs, hcons⟩ := List.exists_cons_of_ne_nil hne
  simp only [hcons]
  have hc : isDigitByte c = true := hdig c (by rw [hcons]; exact List.mem_cons_self _ _)
  have hc48 : 48 ≤ c ∧ c ≤ 57 := by
    simpa [isDigitByte] using hc
  rw [if_neg (by omega), if_neg (by omega)]
  rw [← hcons, pyIntCore_digits hne hdig, hval]
  rfl

lemma pyInt_intToBytes {w : Int} (hw : 0 ≤ w) :
    pyInt (intToBytes w) = .ok w := by
  unfold intToBytes
  rw [if_neg (by omega), pyInt_natToDigitBytes]
  rw [Int.toNat_of_nonneg hw]

lemma splitOnP_sep {p : Nat → Bool} {a : List Nat} (ha : ∀ c ∈ a, p c = false)
    {s : Nat} (hs : p s = true) (rest : List Nat) :
    List.splitOnP p (a ++ s :: rest) = a :: List.splitOnP p rest := by
  induction a with
  | nil => simp [List.splitOnP_cons, hs]
  | cons c a ih =>
    rw [List.cons_append, List.splitOnP_cons,
      if_neg (by simp [ha c (List.mem_cons_self _ _)]),
      ih (fun d hd => ha d (List.mem_cons_of_mem _ hd)), List.modifyHead_cons]

lemma splitOnP_no_sep {p : Nat → Bool} {a : List Nat}
    (ha : ∀ c ∈ a, p c = false) : List.splitOnP p a = [a] := by
  induction a with
  | nil => simp [List.splitOnP_nil]
  | cons c a ih =>
    rw [List.splitOnP_cons, if_neg (by simp [ha c (List.mem_cons_self _ _)]),
      ih (fun d hd => ha d (List.mem_cons_of_mem _ hd)), List.modifyHead_cons]

/-- `split()` inverts `" ".join` on nonempty whitespace-free tokens. -/
lemma pySplitWs_join : ∀ {toks : List (List Nat)},
    (∀ t ∈ toks, t ≠ [] ∧ ∀ c ∈ t, isSpaceByte c = false) →
    pySplitWs (joinSpace toks) = toks := by
  intro toks
  induction toks with
  | nil => intro _; rfl
  | cons t ts ih =>
    intro h
    obtain ⟨htne, htc⟩ := h t (List.mem_cons_self _ _)
    cases ts with
    | nil =>
      show pySplitWs (t ++ [].flatMap (fun u => 32 :: u)) = [t]
      simp only [List.flatMap_nil, List.append_nil]
      unfold pySplitWs
      rw [splitOnP_no_sep htc]
      simp [htne]
    | cons t' ts' =>
      have hjoin : joinSpace (t :: t' :: ts') = t ++ 32 :: joinSpace (t' :: ts') := by
        simp [joinSpace, List.flatMap_cons]
      rw [hjoin]
      unfold pySplitWs
      rw [splitOnP_sep htc (by decide)]
      rw [List.filter_cons_of_pos (by simp [htne])]
      have := ih (fun u hu => h u (List.mem_cons_of_mem _ hu))
      unfold pySplitWs at this
      rw [this]

/-- Splitting at LF after one newline-free line. -/
lemma splitOn10_line {a : List Nat} (h : ∀ b ∈ a, b ≠ 10) (rest : List Nat) :
    splitOn10 (a ++ 10 :: rest) = a :: splitOn10 rest := by
  induction a with
  | nil => simp [splitOn10]
  | cons c a ih =>
    rw [List.cons_append, splitOn10]
    rw [if_neg (h c (List.mem_cons_self _ _)),
      ih (fun d hd => h d (List.mem_cons_of_mem _ hd))]

/-- Splitting a block of newline-terminated, newline-free lines. -/
lemma splitOn10_lines {β : Type} (f : β → List Nat) :
    ∀ (rows : List β), (∀ r ∈ rows, ∀ b ∈ f r, b ≠ 10) →
      splitOn10 (rows.flatMap (fun r => f r ++ [10])) = rows.map f ++ [[]] := by
  intro rows
  induction rows with
  | nil => intro _; rfl
  | cons r rows ih =>
    intro h
    rw [List.flatMap_cons, List.append_assoc, List.singleton_append,
      splitOn10_line (h r (List.mem_cons_self _ _)),
      ih (fun u hu => h u (List.mem_cons_of_mem _ hu)), List.map_cons,
      List.cons_append]

/-! ## PNG encode/decode round trip -/

lemma structPackI_nat (n : Nat) (h : n < 2 ^ 32) :
    structPackI (n : Int) = .ok (be32 n) := by
  unfold structPackI
  rw [if_pos ⟨Int.natCast_nonneg n, by exact_mod_cast h⟩, Int.toNat_natCast]

lemma structPackI_err {n : Int} (h : ¬(0 ≤ n ∧ n < 2 ^ 32)) :
    structPackI n = .error .structError := by
  unfold structPackI
  rw [if_neg h]

lemma structPackI_ok {n : Int} (h : 0 ≤ n ∧ n < 2 ^ 32) :
    structPackI n = .ok (be32 n.toNat) := by
  unfold structPackI
  rw [if_pos h]

lemma ok_bind {α β : Type} (a : α) (f : α → Except PyErr β) :
    Except.bind (Except.ok a) f = f a := rfl

lemma err_bind {α β : Type} (e : PyErr) (f : α → Except PyErr β) :
    Except.bind (Except.error e) f = (Except.error e : Except PyErr β) := rfl

lemma writeChunk_eq {t p : List Nat} (hp : p.length < 2 ^ 32) :
    writeChunk t p = .ok (chunkB t p) := by
  unfold writeChunk
  rw [structPackI_nat p.length hp, ok_bind]
  beta_reduce
  rw [structPackI_nat _ (Nat.mod_lt _ (by norm_num)), ok_bind]
  rfl

lemma writeChunk_err {t p : List Nat} (hp : ¬ p.length < 2 ^ 32) :
    writeChunk t p = .error .structError := by
  unfold writeChunk
  rw [@structPackI_err (p.length : Int) (by push_neg; intro _; omega), err_bind]

lemma length_chunkB {t p : List Nat} (ht : t.length = 4) :
    (chunkB t p).length = 12 + p.length := by
  simp [chunkB, length_be32, ht]
  omega

lemma packIhdr_eq {img : Image} (hw : 0 ≤ img.width ∧ img.width < 2 ^ 32)
    (hh : 0 ≤ img.height ∧ img.height < 2 ^ 32) :
    packIhdr img.width img.height = .ok (ihdrPayload img) := by
  unfold packIhdr
  rw [structPackI_ok hw, ok_bind]
  beta_reduce
  rw [structPackI_ok hh, ok_bind]
  rfl

lemma ihdrPayload_length {img : Image} : (ihdrPayload img).length < 2 ^ 32 := by
  simp [ihdrPayload, length_be32]

/-- Forward evaluation of a successful `savePng`. -/
lemma savePng_eq {compress : List Nat → List Nat} {img : Image}
    (hw : 0 ≤ img.width ∧ img.width < 2 ^ 32)
    (hh : 0 ≤ img.height ∧ img.height < 2 ^ 32)
    (hc : (compress (rawScanlines img)).length < 2 ^ 32) :
    savePng compress img = .ok (pngSignature ++ chunkB tIHDR (ihdrPayload img) ++
      chunkB tIDAT (compress (rawScanlines img)) ++ chunkB tIEND []) := by
  unfold savePng
  rw [packIhdr_eq hw hh, ok_bind]
  beta_reduce
  rw [writeChunk_eq (@ihdrPayload_length img), ok_bind]
  beta_reduce
  rw [writeChunk_eq hc, ok_bind]
  beta_reduce
  rw [writeChunk_eq (t := tIEND) (p := []) (by simp), ok_bind]

lemma savePng_err_w {compress : List Nat → List Nat} {img : Image}
    (hw : ¬(0 ≤ img.width ∧ img.width < 2 ^ 32)) :
    savePng compress img = .error .structError := by
  unfold savePng packIhdr
  rw [structPackI_err hw, err_bind, err_bind]

lemma savePng_err_h {compress : List Nat → List Nat} {img : Image}
    (hw : 0 ≤ img.width ∧ img.width < 2 ^ 32)
    (hh : ¬(0 ≤ img.height ∧ img.height < 2 ^ 32)) :
    savePng compress img = .error .structError := by
  unfold savePng packIhdr
  rw [structPackI_ok hw, ok_bind]
  beta_reduce
  rw [structPackI_err hh, err_bind, err_bind]

lemma savePng_err_c {compress : List Nat → List Nat} {img : Image}
    (hw : 0 ≤ img.width ∧ img.width < 2 ^ 32)
    (hh : 0 ≤ img.height ∧ img.height < 2 ^ 32)
    (hc : ¬(compress (rawScanlines img)).length < 2 ^ 32) :
    savePng compress img = .error .structError := by
  unfold savePng
  rw [packIhdr_eq hw hh, ok_bind]
  beta_reduce
  rw [writeChunk_eq (@ihdrPayload_length img), ok_bind]
  beta_reduce
  rw [writeChunk_err hc, err_bind]

/-- Decomposition of a successful `savePng`. -/
lemma savePng_ok {compress : List Nat → List Nat} {img : Image}
    {bytes : List Nat} (h : savePng compress img = .ok bytes) :
    0 ≤ img.width ∧ img.width < 2 ^ 32 ∧ 0 ≤ img.height ∧ img.height < 2 ^ 32 ∧
    (compress (rawScanlines img)).length < 2 ^ 32 ∧
    bytes = pngSignature ++ chunkB tIHDR (ihdrPayload img) ++
      chunkB tIDAT (compress (rawScanlines img)) ++ chunkB tIEND [] := by
  by_cases hw : 0 ≤ img.width ∧ img.width < 2 ^ 32
  · by_cases hh : 0 ≤ img.height ∧ img.height < 2 ^ 32
    · by_cases hc : (compress (rawScanlines img)).length < 2 ^ 32
      · rw [savePng_eq hw hh hc] at h
        injection h with h2
        exact ⟨hw.1, hw.2, hh.1, hh.2, hc, h2.symm⟩
      · rw [savePng_err_c hw hh hc] at h
        exact Except.noConfusion h
    · rw [savePng_err_h hw hh] at h
      exact Except.noConfusion h
  · rw [savePng_err_w hw] at h
    exact Except.noConfusion h

lemma readIhdr_payload {w h : Nat} :
    readIhdr (be32 w ++ be32 h ++ [8, 0, 0, 0, 0]) =
      .ok (readBe32 (be32 w), readBe32 (be32 h), 8, 0, 0, 0, 0) := by
  simp only [be32, List.cons_append, List.nil_append, readIhdr]

/-- The raw scanline payload has length `(width+1)*height`. -/
lemma rawScanlines_length {img : Image} (hwf : img.wf) :
    (rawScanlines img).length = (img.width.toNat + 1) * img.height.toNat := by
  unfold rawScanlines
  rw [List.length_flatMap]
  have hmap : img.pixels.map
      (List.length ∘ fun row => 0 :: row.map (fun v => (clampToByte v).toNat)) =
      img.pixels.map (fun _ => img.width.toNat + 1) := by
    apply List.map_congr_left
    intro r hr
    simp [wf_mem_row_length hwf hr]
  rw [hmap, List.map_const', List.sum_replicate, smul_eq_mul,
    wf_pixels_length hwf]
  ring

/-- The row loop reconstructs the clamped rows from the raw payload. -/
lemma parseRows_flat {w : Nat} :
    ∀ (rows : List (List Int)) (pre : List Nat), (∀ r ∈ rows, r.length = w) →
      parseRows
          (pre ++ rows.flatMap (fun r => 0 :: r.map (fun v => (clampToByte v).toNat)))
          w pre.length rows.length =
        .ok (rows.map (fun r => r.map clampToByte)) := by
  intro rows
  induction rows with
  | nil => intro pre _; rfl
  | cons r rows ih =>
    intro pre hlen
    have hr : r.length = w := hlen r (List.mem_cons_self _ _)
    rw [List.flatMap_cons]
    have hassoc : pre ++ ((0 :: r.map (fun v => (clampToByte v).toNat)) ++
        rows.flatMap (fun r => 0 :: r.map (fun v => (clampToByte v).toNat))) =
        pre ++ 0 :: (r.map (fun v => (clampToByte v).toNat) ++
          rows.flatMap (fun r => 0 :: r.map (fun v => (clampToByte v).toNat))) := by
      simp
    rw [hassoc]
    simp only [parseRows, List.length_cons]
    have hget : (pre ++ 0 :: (r.map (fun v => (clampToByte v).toNat) ++
        rows.flatMap (fun r => 0 :: r.map (fun v => (clampToByte v).toNat)))).getD
          pre.length 0 = 0 := by
      rw [List.getD_eq_getElem?_getD, List.getElem?_append_right (le_refl _),
        Nat.sub_self]
      simp
    rw [if_neg (fun hne => hne hget)]
    have hdrop : (pre ++ 0 :: (r.map (fun v => (clampToByte v).toNat) ++
        rows.flatMap (fun r => 0 :: r.map (fun v => (clampToByte v).toNat)))).drop
          (pre.length + 1) =
        r.map (fun v => (clampToByte v).toNat) ++
          rows.flatMap (fun r => 0 :: r.map (fun v => (clampToByte v).toNat)) := by
      rw [show pre.length + 1 = pre.length + 1 from rfl, ← List.drop_drop,
        List.drop_left]
      rfl
    have htake : ((pre ++ 0 :: (r.map (fun v => (clampToByte v).toNat) ++
        rows.flatMap (fun r => 0 :: r.map (fun v => (clampToByte v).toNat)))).drop
          (pre.length + 1)).take w =
        r.map (fun v => (clampToByte v).toNat) := by
      rw [hdrop, ← hr, ← List.length_map r (fun v => (clampToByte v).toNat)]
      exact List.take_left _ _
    have hrec := ih (pre ++ 0 :: r.map (fun v => (clampToByte v).toNat))
      (fun q hq => hlen q (List.mem_cons_of_mem _ hq))
    have hprelen : (pre ++ 0 :: r.map (fun v => (clampToByte v).toNat)).length =
        pre.length + 1 + w := by
      simp [hr]
      omega
    rw [hprelen] at hrec
    have hform : (pre ++ 0 :: r.map (fun v => (clampToByte v).toNat)) ++
        rows.flatMap (fun r => 0 :: r.map (fun v => (clampToByte v).toNat)) =
        pre ++ 0 :: (r.map (fun v => (clampToByte v).toNat) ++
          rows.flatMap (fun r => 0 :: r.map (fun v => (clampToByte v).toNat))) := by
      simp
    rw [hform] at hrec
    rw [hrec]
    simp only [bind, Except.bind, htake]
    rw [List.map_map]
    have hcomp : (Int.ofNat ∘ fun v => (clampToByte v).toNat) = clampToByte := by
      funext v
      simp only [Function.comp_apply, Int.ofNat_eq_natCast]
      exact Int.toNat_of_nonneg (le_max_left _ _)
    rw [hcomp]
    rfl

lemma finishPng_eq (dec : List Nat → Except PyErr (List Nat))
    (w h dep ct : Nat) (idat : List Nat) {d : List Nat}
    (hdec : dec idat = .ok d) {rows : List (List Int)}
    (hrows : parseScanlines w h d = .ok rows) :
    finishPng dec ⟨some w, some h, some dep, some ct, idat⟩ =
      .ok { mode := "L", width := (w : Int), height := (h : Int),
            pixels := rows } := by
  show Except.bind (dec idat) (fun d =>
      Except.bind (parseScanlines w h d) (fun rows =>
        (.ok { mode := "L", width := (w : Int), height := (h : Int),
               pixels := rows } : Except PyErr Image))) = _
  rw [hdec, ok_bind]
  beta_reduce
  rw [hrows, ok_bind]

lemma parseScanlines_raw {img : Image} (hwf : img.wf) :
    parseScanlines img.width.toNat img.height.toNat (rawScanlines img) =
      .ok (img.pixels.map (fun row => row.map clampToByte)) := by
  unfold parseScanlines
  rw [if_neg (fun hne => hne (rawScanlines_length hwf))]
  have h := parseRows_flat img.pixels [] (fun r hr => wf_mem_row_length hwf hr)
  simp only [List.nil_append, List.length_nil] at h
  rw [wf_pixels_length hwf] at h
  exact h

/-- Parsing the saved `IHDR` chunk: consumes it, records the header
fields, and continues on the rest. -/
lemma openPngLoop_ihdr (dec : List Nat → Except PyErr (List Nat)) (fuel : Nat)
    (st : PngState) {img : Image} (rest : List Nat)
    (hw : 0 ≤ img.width ∧ img.width < 2 ^ 32)
    (hh : 0 ≤ img.height ∧ img.height < 2 ^ 32) :
    openPngLoop dec (fuel + 1) st (chunkB tIHDR (ihdrPayload img) ++ rest) =
      openPngLoop dec fuel
        { st with w := some img.width.toNat, h := some img.height.toNat,
                  depth := some 8, ctype := some 0 } rest := by
  have hr : readIhdr (ihdrPayload img) =
      .ok (img.width.toNat, img.height.toNat, 8, 0, 0, 0, 0) := by
    show readIhdr (be32 img.width.toNat ++ be32 img.height.toNat ++
      [8, 0, 0, 0, 0]) = _
    rw [readIhdr_payload,
      readBe32_be32 (show img.width.toNat < 2 ^ 32 by omega),
      readBe32_be32 (show img.height.toNat < 2 ^ 32 by omega)]
  rw [openPngLoop_chunk dec fuel st tIHDR (ihdrPayload img) rest (by decide)
    (@ihdrPayload_length img), if_pos rfl, hr]
  rfl

/-- Decoding the body of a saved PNG (signature stripped) recovers the
clamped bitmap, provided decompression inverts compression on the
scanline payload. -/
lemma openPng_save {dec : List Nat → Except PyErr (List Nat)}
    {compress : List Nat → List Nat} {img : Image} (hwf : img.wf)
    (hw : img.width < 2 ^ 32) (hh : img.height < 2 ^ 32)
    (hc : (compress (rawScanlines img)).length < 2 ^ 32)
    (hdec : dec (compress (rawScanlines img)) = .ok (rawScanlines img)) :
    openPng dec (chunkB tIHDR (ihdrPayload img) ++
        (chunkB tIDAT (compress (rawScanlines img)) ++ chunkB tIEND [])) =
      .ok { mode := "L", width := (img.width.toNat : Int),
            height := (img.height.toNat : Int),
            pixels := img.pixels.map (fun row => row.map clampToByte) } := by
  have hflat : [compress (rawScanlines img)].flatMap (fun p => chunkB tIDAT p) =
      chunkB tIDAT (compress (rawScanlines img)) := by simp
  have hps : ∀ p ∈ [compress (rawScanlines img)], p.length < 2 ^ 32 := by
    intro p hp
    rw [List.mem_singleton] at hp
    rw [hp]
    exact hc
  unfold openPng
  rw [openPngLoop_ihdr dec _ initPngState _ ⟨hwf.1, hw⟩ ⟨hwf.2.1, hh⟩]
  show openPngLoop dec
      (chunkB tIHDR (ihdrPayload img) ++
        (chunkB tIDAT (compress (rawScanlines img)) ++ chunkB tIEND [])).length
      ⟨some img.width.toNat, some img.height.toNat, some 8, some 0, []⟩
      (chunkB tIDAT (compress (rawScanlines img)) ++ chunkB tIEND []) = _
  rw [← hflat]
  have hfuel : ([compress (rawScanlines img)] : List (List Nat)).length <
      (chunkB tIHDR (ihdrPayload img) ++
        ([compress (rawScanlines img)].flatMap (fun p => chunkB tIDAT p) ++
          chunkB tIEND [])).length := by
    rw [List.length_append, length_chunkB (by decide), List.length_singleton]
    omega
  rw [openPngLoop_idats dec [compress (rawScanlines img)] _ _ hps hfuel]
  have hfl : ([compress (rawScanlines img)] : List (List Nat)).flatten =
      compress (rawScanlines img) := by simp
  show finishPng dec ⟨some img.width.toNat, some img.height.toNat, some 8,
      some 0, ([] : List Nat) ++ [compress (rawScanlines img)].flatten⟩ = _
  rw [List.nil_append, hfl,
    finishPng_eq dec img.width.toNat img.height.toNat 8 0
      (compress (rawScanlines img)) hdec (parseScanlines_raw hwf)]

/-- Decoding the bytes of a successful `savePng` yields the clamped
bitmap. -/
lemma decode_savePng {compress : List Nat → List Nat}
    {dec : List Nat → Except PyErr (List Nat)} {img : Image} {bytes : List Nat}
    (hwf : img.wf) (hmode : img.mode = "L")
    (hdec : dec (compress (rawScanlines img)) = .ok (rawScanlines img))
    (hsave : savePng compress img = .ok bytes) :
    decode dec bytes = .ok img.clamped := by
  obtain ⟨hw0, hw, hh0, hh, hc, hbytes⟩ := savePng_ok hsave
  subst hbytes
  unfold decode
  rw [show pngSignature ++ chunkB tIHDR (ihdrPayload img) ++
      chunkB tIDAT (compress (rawScanlines img)) ++ chunkB tIEND [] =
      pngSignature ++ (chunkB tIHDR (ihdrPayload img) ++
        (chunkB tIDAT (compress (rawScanlines img)) ++ chunkB tIEND []))
    from by simp [List.append_assoc]]
  rw [show (pngSignature ++ (chunkB tIHDR (ihdrPayload img) ++
      (chunkB tIDAT (compress (rawScanlines img)) ++ chunkB tIEND []))).take 8 =
      pngSignature from by
    rw [show (8 : Nat) = pngSignature.length from rfl]
    exact List.take_left _ _]
  rw [if_pos rfl]
  rw [show (pngSignature ++ (chunkB tIHDR (ihdrPayload img) ++
      (chunkB tIDAT (compress (rawScanlines img)) ++ chunkB tIEND []))).drop 8 =
      chunkB tIHDR (ihdrPayload img) ++
        (chunkB tIDAT (compress (rawScanlines img)) ++ chunkB tIEND []) from by
    rw [show (8 : Nat) = pngSignature.length from rfl]
    exact List.drop_left _ _]
  rw [openPng_save hwf hw hh hc hdec,
    Int.toNat_of_nonneg hw0, Int.toNat_of_nonneg hh0, ← hmode]
  rfl

/-! ## Graymap encode/decode round trip -/

lemma digit_ne_10 {b : Nat} (h : isDigitByte b = true) : b ≠ 10 := by
  simp only [isDigitByte, Bool.and_eq_true, decide_eq_true_eq] at h
  omega

lemma intToBytes_digits {v : Int} (hv : 0 ≤ v) :
    intToBytes v ≠ [] ∧ ∀ b ∈ intToBytes v, isDigitByte b = true := by
  unfold intToBytes
  rw [if_neg (by omega)]
  exact ⟨(natToDigitBytes_spec _).1, (natToDigitBytes_spec _).2.1⟩

lemma mem_joinSpace {b : Nat} {toks : List (List Nat)} (hb : b ∈ joinSpace toks) :
    b = 32 ∨ ∃ t ∈ toks, b ∈ t := by
  cases toks with
  | nil => exact absurd hb (by simp [joinSpace])
  | cons t ts =>
    simp only [joinSpace] at hb
    rcases List.mem_append.mp hb with h | h
    · exact Or.inr ⟨t, List.mem_cons_self _ _, h⟩
    · obtain ⟨u, hu, hbu⟩ := List.mem_flatMap.mp h
      rcases List.mem_cons.mp hbu with h32 | hbu2
      · exact Or.inl h32
      · exact Or.inr ⟨u, List.mem_cons_of_mem _ hu, hbu2⟩

/-- Line decomposition of a saved graymap file. -/
lemma saveGraymap_lines (img : Image) :
    splitOn10 (saveGraymap img) =
      [80, 50] :: (intToBytes img.width ++ [32] ++ intToBytes img.height) ::
        [50, 53, 53] ::
        (img.pixels.map (fun row =>
          joinSpace (row.map (fun v => intToBytes (clampToByte v)))) ++ [[]]) := by
  have hform : saveGraymap img =
      [80, 50] ++ 10 :: ((intToBytes img.width ++ [32] ++ intToBytes img.height) ++
        10 :: ([50, 53, 53] ++ 10 :: img.pixels.flatMap (fun row =>
          joinSpace (row.map (fun v => intToBytes (clampToByte v))) ++ [10]))) := by
    simp [saveGraymap]
  have hdims10 : ∀ b ∈ intToBytes img.width ++ [32] ++ intToBytes img.height,
      b ≠ 10 := by
    intro b hb
    rcases List.mem_append.mp hb with hb1 | hb2
    · rcases List.mem_append.mp hb1 with hbw | hb32
      · rcases le_or_lt 0 img.width with hw | hw
        · exact digit_ne_10 ((intToBytes_digits hw).2 b hbw)
        · unfold intToBytes at hbw
          rw [if_pos hw] at hbw
          rcases List.mem_cons.mp hbw with h45 | hbw2
          · omega
          · exact digit_ne_10 ((natToDigitBytes_spec _).2.1 b hbw2)
      · simp only [List.mem_singleton] at hb32
        omega
    · rcases le_or_lt 0 img.height with hh | hh
      · exact digit_ne_10 ((intToBytes_digits hh).2 b hb2)
      · unfold intToBytes at hb2
        rw [if_pos hh] at hb2
        rcases List.mem_cons.mp hb2 with h45 | hb3
        · omega
        · exact digit_ne_10 ((natToDigitBytes_spec _).2.1 b hb3)
  have hrows10 : ∀ r ∈ img.pixels,
      ∀ b ∈ joinSpace (r.map (fun v => intToBytes (clampToByte v))), b ≠ 10 := by
    intro r _ b hb
    rcases mem_joinSpace hb with h32 | ⟨t, ht, hbt⟩
    · omega
    · obtain ⟨v, _, rfl⟩ := List.mem_map.mp ht
      exact digit_ne_10 ((intToBytes_digits (le_max_left _ _)).2 b hbt)
  rw [hform, splitOn10_line (by decide), splitOn10_line hdims10,
    splitOn10_line (by decide),
    splitOn10_lines (fun row =>
      joinSpace (row.map (fun v => intToBytes (clampToByte v)))) img.pixels hrows10]

/-- The whitespace tokens of the pixel lines are the printed clamped
values, row-major. -/
lemma graymap_tokens : ∀ rows : List (List Int),
    (rows.map (fun row =>
        joinSpace (row.map (fun v => intToBytes (clampToByte v))))).flatMap
        pySplitWs =
      (rows.flatMap (fun row => row.map clampToByte)).map intToBytes := by
  intro rows
  induction rows with
  | nil => rfl
  | cons r rs ih =>
    rw [List.map_cons, List.flatMap_cons, ih, List.flatMap_cons, List.map_append]
    congr 1
    have htok : ∀ t ∈ r.map (fun v => intToBytes (clampToByte v)),
        t ≠ [] ∧ ∀ c ∈ t, isSpaceByte c = false := by
      intro t ht
      obtain ⟨v, _, rfl⟩ := List.mem_map.mp ht
      have h0 : (0 : Int) ≤ clampToByte v := le_max_left _ _
      exact ⟨(intToBytes_digits h0).1,
        fun c hc => digit_not_space ((intToBytes_digits h0).2 c hc)⟩
    rw [pySplitWs_join htok, List.map_map]
    rfl

lemma mapM_pyInt_map : ∀ vals : List Int, (∀ v ∈ vals, 0 ≤ v) →
    (vals.map intToBytes).mapM pyInt = .ok vals := by
  intro vals
  induction vals with
  | nil => intro _; rfl
  | cons v vs ih =>
    intro h
    rw [List.map_cons, List.mapM_cons, pyInt_intToBytes (h v (List.mem_cons_self _ _)),
      ih (fun u hu => h u (List.mem_cons_of_mem _ hu))]
    rfl

/-- The dimension line has no leading or trailing whitespace. -/
lemma pyStrip_dims {w h : Int} (hw : 0 ≤ w) (hh : 0 ≤ h) :
    pyStrip (intToBytes w ++ [32] ++ intToBytes h) =
      intToBytes w ++ [32] ++ intToBytes h := by
  obtain ⟨a, as, hA⟩ := List.exists_cons_of_ne_nil (intToBytes_digits hw).1
  apply pyStrip_eq_self
  · intro b hb
    rw [hA, List.cons_append, List.cons_append, List.head?_cons] at hb
    have hba : a = b := by simpa using hb
    rw [← hba]
    exact digit_not_space ((intToBytes_digits hw).2 a
      (hA ▸ List.mem_cons_self _ _))
  · intro b hb
    obtain ⟨y, hy⟩ := Option.isSome_iff_exists.mp
      (List.getLast?_isSome.mpr (intToBytes_digits hh).1)
    rw [List.getLast?_append, hy] at hb
    have hby : y = b := by simpa using hb
    rw [← hby]
    exact digit_not_space ((intToBytes_digits hh).2 y
      (List.mem_of_mem_getLast? (Option.mem_def.mpr hy)))

lemma pySlice_nat {α : Type} {l : List α} {a b : Nat} (hab : a ≤ b)
    (hb : b ≤ l.length) :
    pySlice l (a : Int) (b : Int) = (l.drop a).take (b - a) := by
  simp only [pySlice, pySliceBound]
  rw [if_neg (by omega), if_neg (by omega), Int.toNat_natCast, Int.toNat_natCast,
    min_eq_left hb, min_eq_left (by omega)]

lemma flatten_slice {w : Nat} :
    ∀ rows : List (List Int), (∀ r ∈ rows, r.length = w) →
      ∀ k, k < rows.length →
        (rows.flatten.drop (k * w)).take w = rows.getD k [] := by
  intro rows
  induction rows with
  | nil =>
    intro _ k hk
    exact absurd hk (by simp)
  | cons r rs ih =>
    intro hlen k hk
    cases k with
    | zero =>
      rw [Nat.zero_mul, List.drop_zero, List.flatten_cons,
        ← hlen r (List.mem_cons_self _ _), List.take_left]
      rfl
    | succ k =>
      rw [List.flatten_cons, show (k + 1) * w = w + k * w from by ring,
        ← List.drop_drop, List.drop_left' (hlen r (List.mem_cons_self _ _)),
        List.getD_cons_succ]
      exact ih (fun q hq => hlen q (List.mem_cons_of_mem _ hq)) k
        (by simpa using hk)

/-- Slicing the flattened grid back into rows of width `w`. -/
lemma reshape_rows {w : Nat} (rows : List (List Int))
    (hrow : ∀ r ∈ rows, r.length = w) :
    (intRange 0 (rows.length : Int)).map
      (fun i => pySlice rows.flatten (i * (w : Int)) ((i + 1) * (w : Int))) =
      rows := by
  have hrange : intRange 0 (rows.length : Int) =
      (List.range rows.length).map (fun (k : Nat) => (k : Int)) := by
    unfold intRange
    rw [Int.sub_zero, Int.toNat_natCast]
    exact List.map_congr_left (fun k _ => by simp)
  have hflatlen : rows.flatten.length = rows.length * w := by
    rw [List.length_flatten,
      show rows.map List.length = rows.map (fun _ => w) from
        List.map_congr_left (fun r hr => hrow r hr),
      List.map_const', List.sum_replicate, smul_eq_mul]
  rw [hrange, List.map_map]
  apply List.ext_getElem
  · simp
  · intro k hk1 hk2
    rw [List.getElem_map, List.getElem_range]
    show pySlice rows.flatten ((k : Int) * (w : Int))
      (((k : Int) + 1) * (w : Int)) = rows[k]
    have hk : k < rows.length := hk2
    have hc1 : (k : Int) * (w : Int) = ((k * w : Nat) : Int) := by push_cast; ring
    have hc2 : ((k : Int) + 1) * (w : Int) = (((k + 1) * w : Nat) : Int) := by
      push_cast
      ring
    rw [hc1, hc2, pySlice_nat (by rw [Nat.succ_mul]; omega)
        (by rw [hflatlen]; exact Nat.mul_le_mul_right w (by omega)),
      show (k + 1) * w - k * w = w from by rw [Nat.succ_mul]; omega,
      flatten_slice rows hrow k hk]
    exact List.getD_eq_getElem rows [] hk

/-- A successful graymap parse: good header, dimension and max lines, and
a token list of exactly `w * h` integers. -/
lemma openGraymap_ok (header dims maxl : List Nat)
    (dataLines : List (List Nat)) {wTok hTok : List Nat} {w h : Int}
    (hH : pyStrip header = [80, 50])
    (hc : ¬ (pyStrip dims).head? = some 35)
    (hsplit : pySplitWs (pyStrip dims) = [wTok, hTok])
    (hw : pyInt wTok = .ok w) (hh : pyInt hTok = .ok h)
    (hm : pyInt (pyStrip maxl) = .ok 255) {data : List Int}
    (hdata : (dataLines.flatMap pySplitWs).mapM pyInt = .ok data)
    (hcount : (data.length : Int) = w * h) :
    openGraymap (header :: dims :: maxl :: dataLines) =
      .ok { mode := "L", width := w, height := h,
            pixels := (intRange 0 h).map
              (fun i => pySlice data (i * w) ((i + 1) * w)) } := by
  rw [openGraymap_reduce header dims maxl dataLines hH hc hsplit hw hh hm,
    if_neg (by simp), hdata]
  show (if ((data.length : Int) ≠ w * h) then
      (.error (.valueError "Unexpected pixel count") : Except PyErr Image)
    else .ok { mode := "L", width := w, height := h,
               pixels := (intRange 0 h).map
                 (fun i => pySlice data (i * w) ((i + 1) * w)) }) = _
  rw [if_neg (fun hne => hne hcount)]

/-- Decoding a saved graymap yields the clamped bitmap. -/
lemma decode_saveGraymap {dec : List Nat → Except PyErr (List Nat)} {img : Image}
    (hwf : img.wf) (hmode : img.mode = "L") :
    decode dec (saveGraymap img) = .ok img.clamped := by
  have hw0 : 0 ≤ img.width := hwf.1
  have hh0 : 0 ≤ img.height := hwf.2.1
  have hhead : ((saveGraymap img).take 8).head? = some 80 := rfl
  have hne : ¬ (saveGraymap img).take 8 = pngSignature := by
    intro heq
    rw [heq] at hhead
    exact absurd hhead (by decide)
  unfold decode
  rw [if_neg hne, saveGraymap_lines img]
  obtain ⟨a, as, hAc⟩ := List.exists_cons_of_ne_nil (intToBytes_digits hw0).1
  have ha : isDigitByte a = true :=
    (intToBytes_digits hw0).2 a (hAc ▸ List.mem_cons_self _ _)
  have hcm : ¬ (pyStrip (intToBytes img.width ++ [32] ++
      intToBytes img.height)).head? = some 35 := by
    rw [pyStrip_dims hw0 hh0, hAc, List.cons_append, List.cons_append,
      List.head?_cons]
    intro hcontra
    have ha35 := Option.some.inj hcontra
    simp only [isDigitByte, Bool.and_eq_true, decide_eq_true_eq] at ha
    omega
  have hsplit : pySplitWs (pyStrip (intToBytes img.width ++ [32] ++
      intToBytes img.height)) = [intToBytes img.width, intToBytes img.height] := by
    rw [pyStrip_dims hw0 hh0,
      show intToBytes img.width ++ [32] ++ intToBytes img.height =
        joinSpace [intToBytes img.width, intToBytes img.height] from by
          simp [joinSpace]]
    apply pySplitWs_join
    intro t ht
    have hdig : t = intToBytes img.width ∨ t = intToBytes img.height := by
      simpa using ht
    rcases hdig with rfl | rfl
    · exact ⟨(intToBytes_digits hw0).1,
        fun c hc => digit_not_space ((intToBytes_digits hw0).2 c hc)⟩
    · exact ⟨(intToBytes_digits hh0).1,
        fun c hc => digit_not_space ((intToBytes_digits hh0).2 c hc)⟩
  have hdata : ((img.pixels.map (fun (row : List Int) =>
      joinSpace (row.map (fun v => intToBytes (clampToByte v)))) ++
        [[]]).flatMap pySplitWs).mapM pyInt =
      .ok (img.pixels.flatMap (fun row => row.map clampToByte)) := by
    rw [List.flatMap_append,
      show ([[]] : List (List Nat)).flatMap pySplitWs = [] from rfl,
      List.append_nil, graymap_tokens]
    apply mapM_pyInt_map
    intro v hv
    obtain ⟨row, _, hvr⟩ := List.mem_flatMap.mp hv
    obtain ⟨x, _, rfl⟩ := List.mem_map.mp hvr
    exact le_max_left _ _
  have hcount : ((img.pixels.flatMap
      (fun row => row.map clampToByte)).length : Int) =
      img.width * img.height := by
    rw [List.length_flatMap,
      show img.pixels.map (List.length ∘ fun row => row.map clampToByte) =
        img.pixels.map (fun _ => img.width.toNat) from
        List.map_congr_left (fun r hr => by
          simp [wf_mem_row_length hwf hr]),
      List.map_const', List.sum_replicate, smul_eq_mul, wf_pixels_length hwf,
      Nat.cast_mul, Int.toNat_of_nonneg hw0, Int.toNat_of_nonneg hh0]
    ring
  rw [openGraymap_ok [80, 50]
    (intToBytes img.width ++ [32] ++ intToBytes img.height) [50, 53, 53] _
    (by decide) hcm hsplit (pyInt_intToBytes hw0) (pyInt_intToBytes hh0)
    (by decide) hdata hcount]
  have hpix : (intRange 0 img.height).map
      (fun i => pySlice (img.pixels.flatMap (fun row => row.map clampToByte))
        (i * img.width) ((i + 1) * img.width)) =
      img.pixels.map (fun row => row.map clampToByte) := by
    have hres := reshape_rows (w := img.width.toNat)
      (img.pixels.map (fun row => row.map clampToByte))
      (fun r hr => by
        obtain ⟨row, hrow, rfl⟩ := List.mem_map.mp hr
        simp [wf_mem_row_length hwf hrow])
    rw [List.length_map, wf_pixels_length hwf, Int.toNat_of_nonneg hh0,
      Int.toNat_of_nonneg hw0, ← List.flatMap_def] at hres
    exact hres
  rw [hpix, ← hmode]
  rfl

/-- C1: codec round trip — for a well-formed mode-"L" bitmap, whenever the
PNG encoder succeeds and the supplied decompressor inverts the supplied
compressor, decoding the produced PNG bytes yields the source bitmap with
every pixel clamped to `[0, 255]`; likewise, decoding the text-graymap
serialization yields the clamped bitmap. -/
theorem codec_round_trip :
    (∀ (compress : List Nat → List Nat)
        (decompress : List Nat → Except PyErr (List Nat)) (img : Image)
        (bytes : List Nat), img.wf → img.mode = "L" →
        (∀ l, decompress (compress l) = .ok l) →
        savePng compress img = .ok bytes →
        decode decompress bytes = .ok img.clamped) ∧
    (∀ (decompress : List Nat → Except PyErr (List Nat)) (img : Image),
        img.wf → img.mode = "L" →
        decode decompress (saveGraymap img) = .ok img.clamped) := by
  constructor
  · intro compress decompress img bytes hwf hmode hinv hsave
    exact decode_savePng hwf hmode (hinv _) hsave
  · intro decompress img hwf hmode
    exact decode_saveGraymap hwf hmode

set_option maxRecDepth 10000 in
/-- Witness for `codec_round_trip`: the 2x1 bitmap with pixels 300 and -5
(clamping to 255 and 0), the identity compressor, and the always-ok
decompressor. -/
theorem codec_round_trip_witness :
    decode Except.ok
        [137, 80, 78, 71, 13, 10, 26, 10, 0, 0, 0, 13, 73, 72, 68, 82, 0, 0, 0,
          2, 0, 0, 0, 1, 8, 0, 0, 0, 0, 209, 73, 32, 86, 0, 0, 0, 3, 73, 68, 65,
          84, 0, 255, 0, 106, 238, 179, 208, 0, 0, 0, 0, 73, 69, 78, 68, 174, 66,
          96, 130] =
      .ok (Image.clamped ⟨"L", 2, 1, [[300, -5]]⟩) ∧
    decode Except.ok (saveGraymap ⟨"L", 2, 1, [[300, -5]]⟩) =
      .ok (Image.clamped ⟨"L", 2, 1, [[300, -5]]⟩) := by
  constructor
  · exact codec_round_trip.1 id Except.ok ⟨"L", 2, 1, [[300, -5]]⟩ _
      (by decide) rfl (fun l => rfl) (by decide)
  · exact codec_round_trip.2 Except.ok ⟨"L", 2, 1, [[300, -5]]⟩ (by decide) rfl

/-! ## CRC-32 detection of single-byte corruption -/

set_option maxRecDepth 100000 in
set_option maxHeartbeats 1000000 in
lemma crcTableEntry_lt : ∀ j < 256, crcTableEntry j < 2 ^ 32 := by decide

set_option maxRecDepth 100000 in
set_option maxHeartbeats 4000000 in
/-- The top byte of a CRC table entry determines its index. -/
lemma crcTableEntry_top_inj :
    ∀ i < 256, ∀ j < 256,
      crcTableEntry i / 2 ^ 24 = crcTableEntry j / 2 ^ 24 → i = j := by decide

lemma crc32Update_lt {s : Nat} (b : Nat) (hs : s < 2 ^ 32) :
    crc32Update s b < 2 ^ 32 := by
  unfold crc32Update
  exact Nat.xor_lt_two_pow
    (crcTableEntry_lt _ (Nat.mod_lt _ (by norm_num))) (by omega)

lemma crc_foldl_lt : ∀ (l : List Nat) {s : Nat}, s < 2 ^ 32 →
    List.foldl crc32Update s l < 2 ^ 32 := by
  intro l
  induction l with
  | nil =>
    intro s hs
    simpa using hs
  | cons b t ih =>
    intro s hs
    rw [List.foldl_cons]
    exact ih (crc32Update_lt b hs)

lemma crc32_lt (data : List Nat) : crc32 data < 2 ^ 32 := by
  unfold crc32
  exact Nat.xor_lt_two_pow (crc_foldl_lt data (by norm_num)) (by norm_num)

lemma natXor_eq (a b : Nat) : Nat.xor a b = a ^^^ b := rfl

lemma xor_mod_pow (a b n : Nat) :
    (a ^^^ b) % 2 ^ n = a % 2 ^ n ^^^ b % 2 ^ n := by
  rw [← Nat.and_pow_two_sub_one_eq_mod, ← Nat.and_pow_two_sub_one_eq_mod,
    ← Nat.and_pow_two_sub_one_eq_mod, Nat.and_xor_distrib_right]

lemma xor_div_pow (a b n : Nat) :
    (a ^^^ b) / 2 ^ n = a / 2 ^ n ^^^ b / 2 ^ n := by
  rw [← Nat.shiftRight_eq_div_pow, ← Nat.shiftRight_eq_div_pow,
    ← Nat.shiftRight_eq_div_pow]
  apply Nat.eq_of_testBit_eq
  intro i
  simp [Nat.testBit_shiftRight, Nat.testBit_xor]

/-- One CRC step is injective in the 32-bit state for a fixed byte. -/
lemma crc32Update_inj {s1 s2 : Nat} (b : Nat) (h1 : s1 < 2 ^ 32)
    (h2 : s2 < 2 ^ 32) (heq : crc32Update s1 b = crc32Update s2 b) :
    s1 = s2 := by
  unfold crc32Update at heq
  simp only [natXor_eq] at heq
  have htop := congrArg (fun x => x / 2 ^ 24) heq
  simp only [xor_div_pow] at htop
  rw [Nat.div_div_eq_div_mul, Nat.div_div_eq_div_mul,
    show (256 : Nat) * 2 ^ 24 = 2 ^ 32 from by norm_num,
    Nat.div_eq_of_lt h1, Nat.div_eq_of_lt h2] at htop
  simp only [Nat.xor_zero] at htop
  have hl : (s1 ^^^ b) % 256 = (s2 ^^^ b) % 256 :=
    crcTableEntry_top_inj _ (Nat.mod_lt _ (by norm_num)) _
      (Nat.mod_lt _ (by norm_num)) htop
  have hdiv : s1 / 256 = s2 / 256 := by
    rw [hl] at heq
    exact Nat.xor_right_injective heq
  have hmod : s1 % 256 = s2 % 256 := by
    rw [show (256 : Nat) = 2 ^ 8 from by norm_num, xor_mod_pow, xor_mod_pow] at hl
    have h8 := Nat.xor_left_injective hl
    rw [show (2 : Nat) ^ 8 = 256 from by norm_num] at h8
    exact h8
  omega

/-- One CRC step distinguishes two distinct bytes under the same state. -/
lemma crc32Update_ne_byte {s b1 b2 : Nat} (hb1 : b1 < 256)
    (hb2 : b2 < 256) (hne : b1 ≠ b2) :
    crc32Update s b1 ≠ crc32Update s b2 := by
  intro heq
  unfold crc32Update at heq
  simp only [natXor_eq] at heq
  have hT : crcTableEntry ((s ^^^ b1) % 256) =
      crcTableEntry ((s ^^^ b2) % 256) := Nat.xor_left_injective heq
  have hl : (s ^^^ b1) % 256 = (s ^^^ b2) % 256 :=
    crcTableEntry_top_inj _ (Nat.mod_lt _ (by norm_num)) _
      (Nat.mod_lt _ (by norm_num)) (congrArg (fun x => x / 2 ^ 24) hT)
  rw [show (256 : Nat) = 2 ^ 8 from by norm_num, xor_mod_pow, xor_mod_pow] at hl
  have hb := Nat.xor_right_injective hl
  rw [Nat.mod_eq_of_lt (show b1 < 2 ^ 8 from by omega),
    Nat.mod_eq_of_lt (show b2 < 2 ^ 8 from by omega)] at hb
  exact hne hb

lemma crc_foldl_inj : ∀ (suf : List Nat) {s1 s2 : Nat}, s1 < 2 ^ 32 →
    s2 < 2 ^ 32 → s1 ≠ s2 →
    List.foldl crc32Update s1 suf ≠ List.foldl crc32Update s2 suf := by
  intro suf
  induction suf with
  | nil =>
    intro s1 s2 _ _ hne
    simpa using hne
  | cons b t ih =>
    intro s1 s2 h1 h2 hne
    rw [List.foldl_cons, List.foldl_cons]
    exact ih (crc32Update_lt b h1) (crc32Update_lt b h2)
      (fun he => hne (crc32Update_inj b h1 h2 he))

/-- CRC-32 distinguishes two byte streams differing in one byte. -/
lemma crc32_set_ne {tp : List Nat} {i : Nat} {v : Nat}
    (hbytes : ∀ b ∈ tp, b < 256) (hi : i < tp.length) (hv : v < 256)
    (hne : v ≠ tp.getD i 0) : crc32 (tp.set i v) ≠ crc32 tp := by
  intro heq
  unfold crc32 at heq
  have hfold := Nat.xor_left_injective heq
  have hset : tp.set i v = tp.take i ++ v :: tp.drop (i + 1) := by
    rw [List.set_eq_take_append_cons_drop, if_pos hi]
  have htp : tp.take i ++ tp.getD i 0 :: tp.drop (i + 1) = tp := by
    rw [List.getD_eq_getElem tp 0 hi, ← List.drop_eq_getElem_cons hi,
      List.take_append_drop]
  have hF1 : List.foldl crc32Update 0xFFFFFFFF (tp.set i v) =
      List.foldl crc32Update
        (crc32Update (List.foldl crc32Update 0xFFFFFFFF (tp.take i)) v)
        (tp.drop (i + 1)) := by
    rw [hset, List.foldl_append, List.foldl_cons]
  have hF2 : List.foldl crc32Update 0xFFFFFFFF tp =
      List.foldl crc32Update
        (crc32Update (List.foldl crc32Update 0xFFFFFFFF (tp.take i))
          (tp.getD i 0))
        (tp.drop (i + 1)) := by
    conv_lhs => rw [← htp]
    rw [List.foldl_append, List.foldl_cons]
  rw [hF1, hF2] at hfold
  have hs : List.foldl crc32Update 0xFFFFFFFF (tp.take i) < 2 ^ 32 :=
    crc_foldl_lt (tp.take i) (by norm_num)
  have hgd : tp.getD i 0 < 256 := by
    rw [List.getD_eq_getElem tp 0 hi]
    exact hbytes _ (List.getElem_mem hi)
  exact crc_foldl_inj (tp.drop (i + 1)) (crc32Update_lt _ hs)
    (crc32Update_lt _ hs) (crc32Update_ne_byte hv hgd hne) hfold

/-- A well-framed chunk whose stored CRC disagrees with the CRC-32 of its
type-and-payload bytes makes the chunk loop fail with the corruption
error. -/
lemma openPngLoop_badcrc (dec : List Nat → Except PyErr (List Nat)) (fuel : Nat)
    (st : PngState) (tp : List Nat) (plen c : Nat) (rest : List Nat)
    (htp : tp.length = 4 + plen) (hplen : plen < 2 ^ 32) (hc : c < 2 ^ 32)
    (hne : crc32 tp % 2 ^ 32 ≠ c) :
    openPngLoop dec (fuel + 1) st (be32 plen ++ (tp ++ (be32 c ++ rest))) =
      .error (.valueError "Corrupted PNG file") := by
  have h4 : (be32 plen).length = 4 := length_be32 _
  have hlen : (be32 plen ++ (tp ++ (be32 c ++ rest))).length =
      12 + plen + rest.length := by
    simp [length_be32, htp]
    omega
  have htake4 : (be32 plen ++ (tp ++ (be32 c ++ rest))).take 4 = be32 plen := by
    rw [← h4]
    exact List.take_left _ _
  have hdrop4 : (be32 plen ++ (tp ++ (be32 c ++ rest))).drop 4 =
      tp ++ (be32 c ++ rest) := by
    rw [← h4]
    exact List.drop_left _ _
  have htype : ((be32 plen ++ (tp ++ (be32 c ++ rest))).drop 4).take 4 =
      tp.take 4 := by
    rw [hdrop4]
    exact List.take_append_of_le_length (by omega)
  have hdrop8 : (be32 plen ++ (tp ++ (be32 c ++ rest))).drop 8 =
      tp.drop 4 ++ (be32 c ++ rest) := by
    rw [show (8 : Nat) = 4 + 4 from rfl, ← List.drop_drop, hdrop4]
    exact List.drop_append_of_le_length (by omega)
  have hdata : ((be32 plen ++ (tp ++ (be32 c ++ rest))).drop 8).take plen =
      tp.drop 4 := by
    rw [hdrop8]
    exact List.take_left' (by rw [List.length_drop, htp]; omega)
  have hdropc : (be32 plen ++ (tp ++ (be32 c ++ rest))).drop (8 + plen) =
      be32 c ++ rest := by
    rw [← List.drop_drop, hdrop8]
    exact List.drop_left' (by rw [List.length_drop, htp]; omega)
  have hcrcb : ((be32 plen ++ (tp ++ (be32 c ++ rest))).drop (8 + plen)).take 4 =
      be32 c := by
    rw [hdropc, ← length_be32 c]
    exact List.take_left _ _
  simp only [openPngLoop, htake4, readBe32_be32 hplen, htype, hdata, hcrcb,
    readBe32_be32 hc]
  rw [if_neg (by omega), if_neg (by omega), if_neg (by omega), if_neg (by omega),
    List.take_append_drop, if_pos hne]

lemma set_append_left {α : Type} {a b : List α} {n : Nat} (v : α)
    (h : n < a.length) : (a ++ b).set n v = a.set n v ++ b := by
  rw [List.set_append, if_pos h]

lemma set_append_right {α : Type} {a b : List α} {n : Nat} (v : α)
    (h : a.length ≤ n) : (a ++ b).set n v = a ++ b.set (n - a.length) v := by
  rw [List.set_append, if_neg (by omega)]

/-- Overwriting a byte of a framed chunk inside its type tag or payload
leaves the length and stored CRC fields intact. -/
lemma chunkB_set_frame {t p : List Nat} {i : Nat} (v : Nat)
    (hi : i < (t ++ p).length) (suffix : List Nat) :
    (chunkB t p).set (4 + i) v ++ suffix =
      be32 p.length ++ (((t ++ p).set i v) ++
        (be32 (crc32 (t ++ p) % 2 ^ 32) ++ suffix)) := by
  unfold chunkB
  rw [show be32 p.length ++ t ++ p ++ be32 (crc32 (t ++ p) % 2 ^ 32) =
      be32 p.length ++ ((t ++ p) ++ be32 (crc32 (t ++ p) % 2 ^ 32)) from by
    simp [List.append_assoc]]
  rw [set_append_right v (by rw [length_be32]; omega), length_be32,
    show 4 + i - 4 = i from by omega, set_append_left v hi]
  simp [List.append_assoc]

lemma be32_bytes {n : Nat} : ∀ b ∈ be32 n, b < 256 := by
  intro b hb
  simp only [be32, List.mem_cons, List.not_mem_nil, or_false] at hb
  rcases hb with rfl | rfl | rfl | rfl <;> exact Nat.mod_lt _ (by norm_num)

lemma ihdrPayload_bytes {img : Image} : ∀ b ∈ tIHDR ++ ihdrPayload img,
    b < 256 := by
  intro b hb
  rcases List.mem_append.mp hb with h | h
  · simp only [tIHDR, List.mem_cons, List.not_mem_nil, or_false] at h
    rcases h with rfl | rfl | rfl | rfl <;> norm_num
  · unfold ihdrPayload at h
    rcases List.mem_append.mp h with h2 | h3
    · rcases List.mem_append.mp h2 with h4 | h5
      · exact be32_bytes _ h4
      · exact be32_bytes _ h5
    · simp only [List.mem_cons, List.not_mem_nil, or_false] at h3
      rcases h3 with rfl | rfl | rfl | rfl | rfl <;> norm_num

lemma rawScanlines_bytes {img : Image} : ∀ b ∈ rawScanlines img, b < 256 := by
  intro b hb
  unfold rawScanlines at hb
  obtain ⟨row, _, hbr⟩ := List.mem_flatMap.mp hb
  rcases List.mem_cons.mp hbr with rfl | hbm
  · norm_num
  · obtain ⟨u, _, rfl⟩ := List.mem_map.mp hbm
    have h1 : (0 : Int) ≤ clampToByte u := le_max_left _ _
    have h2 : clampToByte u ≤ 255 := by
      unfold clampToByte
      omega
    omega

lemma ihdrPayload_len13 {img : Image} : (ihdrPayload img).length = 13 := by
  simp [ihdrPayload, length_be32]

/-- The PNG signature prefix routes `decode` to the PNG reader. -/
lemma decode_sig (dec : List Nat → Except PyErr (List Nat)) (body : List Nat) :
    decode dec (pngSignature ++ body) = openPng dec body := by
  unfold decode
  rw [show (pngSignature ++ body).take 8 = pngSignature from by
      rw [show (8 : Nat) = pngSignature.length from rfl]
      exact List.take_left _ _,
    if_pos rfl,
    show (pngSignature ++ body).drop 8 = body from by
      rw [show (8 : Nat) = pngSignature.length from rfl]
      exact List.drop_left _ _]

/-- Overwriting any single byte of any chunk's type tag or payload in a
saved PNG makes decoding fail with the corruption error. -/
lemma decode_set_corrupt {compress : List Nat → List Nat}
    {dec : List Nat → Except PyErr (List Nat)} {img : Image} {bytes : List Nat}
    (hcb : ∀ l, (∀ b ∈ l, b < 256) → ∀ b ∈ compress l, b < 256)
    (hsave : savePng compress img = .ok bytes) :
    ∀ start tp, (start, tp) ∈ pngChunkRegions compress img →
    ∀ i, i < tp.length → ∀ v, v < 256 → v ≠ tp.getD i 0 →
    decode dec (bytes.set (start + i) v) =
      .error (.valueError "Corrupted PNG file") := by
  intro start tp hmem i hi v hv hvne
  obtain ⟨hw0, hw, hh0, hh, hclen, hbytes⟩ := savePng_ok hsave
  subst hbytes
  have hcompb : ∀ b ∈ compress (rawScanlines img), b < 256 :=
    hcb _ rawScanlines_bytes
  have hlS : pngSignature.length = 8 := rfl
  have hlC1 : (chunkB tIHDR (ihdrPayload img)).length = 25 := by
    rw [length_chunkB (by decide), ihdrPayload_len13]
  have hlC2 : (chunkB tIDAT (compress (rawScanlines img))).length =
      12 + (compress (rawScanlines img)).length := length_chunkB (by decide)
  have hlC3 : (chunkB tIEND []).length = 12 := length_chunkB (by decide)
  simp only [pngChunkRegions, List.mem_cons, List.not_mem_nil, or_false,
    Prod.mk.injEq] at hmem
  rcases hmem with ⟨rfl, rfl⟩ | ⟨rfl, rfl⟩ | ⟨rfl, rfl⟩
  · -- IHDR region
    have hi17 : i < 17 := by
      rw [show (tIHDR ++ ihdrPayload img).length = 17 from by
        rw [List.length_append, ihdrPayload_len13]
        rfl] at hi
      exact hi
    have hsurg : (pngSignature ++ chunkB tIHDR (ihdrPayload img) ++
        chunkB tIDAT (compress (rawScanlines img)) ++
          chunkB tIEND []).set (12 + i) v =
        pngSignature ++ ((chunkB tIHDR (ihdrPayload img)).set (4 + i) v ++
          (chunkB tIDAT (compress (rawScanlines img)) ++ chunkB tIEND [])) := by
      rw [set_append_left v (by
          rw [List.length_append, List.length_append, hlS, hlC1, hlC2]
          omega),
        set_append_left v (by
          rw [List.length_append, hlS, hlC1]
          omega),
        set_append_right v (by rw [hlS]; omega), hlS,
        show 12 + i - 8 = 4 + i from by omega]
      simp [List.append_assoc]
    rw [hsurg, decode_sig]
    unfold openPng
    rw [chunkB_set_frame v hi
      (chunkB tIDAT (compress (rawScanlines img)) ++ chunkB tIEND [])]
    exact openPngLoop_badcrc dec _ initPngState _ _ _ _
      (by rw [List.length_set, List.length_append, ihdrPayload_len13]; rfl)
      ihdrPayload_length (Nat.mod_lt _ (by norm_num))
      (by
        rw [Nat.mod_eq_of_lt (crc32_lt _), Nat.mod_eq_of_lt (crc32_lt _)]
        exact crc32_set_ne ihdrPayload_bytes hi hv hvne)
  · -- IDAT region
    have hiB : i < 4 + (compress (rawScanlines img)).length := by
      rw [List.length_append, show tIDAT.length = 4 from rfl] at hi
      exact hi
    have htpb : ∀ b ∈ tIDAT ++ compress (rawScanlines img), b < 256 := by
      intro b hb
      rcases List.mem_append.mp hb with h | h
      · simp only [tIDAT, List.mem_cons, List.not_mem_nil, or_false] at h
        rcases h with rfl | rfl | rfl | rfl <;> norm_num
      · exact hcompb b h
    have hsurg : (pngSignature ++ chunkB tIHDR (ihdrPayload img) ++
        chunkB tIDAT (compress (rawScanlines img)) ++
          chunkB tIEND []).set (37 + i) v =
        pngSignature ++ (chunkB tIHDR (ihdrPayload img) ++
          ((chunkB tIDAT (compress (rawScanlines img))).set (4 + i) v ++
            chunkB tIEND [])) := by
      rw [set_append_left v (by
          rw [List.length_append, List.length_append, hlS, hlC1, hlC2]
          omega),
        set_append_right v (by rw [List.length_append, hlS, hlC1]; omega),
        List.length_append, hlS, hlC1,
        show 37 + i - (8 + 25) = 4 + i from by omega]
      simp [List.append_assoc]
    rw [hsurg, decode_sig]
    unfold openPng
    rw [openPngLoop_ihdr dec _ initPngState _ ⟨hw0, hw⟩ ⟨hh0, hh⟩]
    obtain ⟨f, hf⟩ : ∃ f, (chunkB tIHDR (ihdrPayload img) ++
        ((chunkB tIDAT (compress (rawScanlines img))).set (4 + i) v ++
          chunkB tIEND [])).length = f + 1 :=
      ⟨(chunkB tIHDR (ihdrPayload img) ++
        ((chunkB tIDAT (compress (rawScanlines img))).set (4 + i) v ++
          chunkB tIEND [])).length - 1,
        by rw [List.length_append, hlC1]; omega⟩
    rw [hf, chunkB_set_frame v hi (chunkB tIEND [])]
    exact openPngLoop_badcrc dec f _ _ _ _ _
      (by rw [List.length_set, List.length_append]; rfl)
      hclen (Nat.mod_lt _ (by norm_num))
      (by
        rw [Nat.mod_eq_of_lt (crc32_lt _), Nat.mod_eq_of_lt (crc32_lt _)]
        exact crc32_set_ne htpb hi hv hvne)
  · -- IEND region
    have hiB : i < 4 := by
      rw [show tIEND.length = 4 from rfl] at hi
      exact hi
    have hlC3s : ((chunkB tIEND []).set (4 + i) v).length = 12 := by
      rw [List.length_set]
      exact hlC3
    have hsurg : (pngSignature ++ chunkB tIHDR (ihdrPayload img) ++
        chunkB tIDAT (compress (rawScanlines img)) ++
          chunkB tIEND []).set (49 + (compress (rawScanlines img)).length + i)
            v =
        pngSignature ++ (chunkB tIHDR (ihdrPayload img) ++
          (chunkB tIDAT (compress (rawScanlines img)) ++
            (chunkB tIEND []).set (4 + i) v)) := by
      rw [set_append_right v (by
          rw [List.length_append, List.length_append, hlS, hlC1, hlC2]
          omega),
        List.length_append, List.length_append, hlS, hlC1, hlC2,
        show 49 + (compress (rawScanlines img)).length + i -
          (8 + 25 + (12 + (compress (rawScanlines img)).length)) = 4 + i
          from by omega]
      simp [List.append_assoc]
    rw [hsurg, decode_sig]
    unfold openPng
    rw [openPngLoop_ihdr dec _ initPngState _ ⟨hw0, hw⟩ ⟨hh0, hh⟩]
    obtain ⟨f, hf⟩ : ∃ f, (chunkB tIHDR (ihdrPayload img) ++
        (chunkB tIDAT (compress (rawScanlines img)) ++
          (chunkB tIEND []).set (4 + i) v)).length = f + 1 :=
      ⟨(chunkB tIHDR (ihdrPayload img) ++
        (chunkB tIDAT (compress (rawScanlines img)) ++
          (chunkB tIEND []).set (4 + i) v)).length - 1,
        by rw [List.length_append, hlC1]; omega⟩
    rw [hf, openPngLoop_chunk dec f _ tIDAT (compress (rawScanlines img)) _
      (by decide) hclen, if_neg (by decide), if_pos rfl]
    obtain ⟨f2, hf2⟩ : ∃ f2, f = f2 + 1 := by
      refine ⟨f - 1, ?_⟩
      rw [List.length_append, List.length_append, hlC1, hlC2, hlC3s] at hf
      omega
    rw [hf2,
      show (chunkB tIEND []).set (4 + i) v =
        (chunkB tIEND []).set (4 + i) v ++ ([] : List Nat)
        from (List.append_nil _).symm,
      chunkB_set_frame v (by
        rw [List.length_append]
        simpa using hiB) ([] : List Nat),
      show tIEND ++ ([] : List Nat) = tIEND from List.append_nil _]
    exact openPngLoop_badcrc dec f2 _ _ _ _ _
      (by rw [List.length_set]; rfl) (by norm_num)
      (Nat.mod_lt _ (by norm_num))
      (by
        rw [Nat.mod_eq_of_lt (crc32_lt _), Nat.mod_eq_of_lt (crc32_lt _)]
        exact crc32_set_ne (by decide) hi hv hvne)

/-- C2: PNG CRC enforcement — (1) on any well-framed chunk the loop
recomputes CRC-32 over the 4-byte type tag followed by the payload and
fails with the corruption `ValueError` whenever it differs from the
stored trailing CRC; (2) for every bitmap successfully saved as PNG and
every single-byte change inside any chunk's type tag or payload (the
compressor mapping bytes to bytes), decoding the altered file fails with
the corruption `ValueError`. -/
theorem png_crc_enforcement :
    (∀ (dec : List Nat → Except PyErr (List Nat)) (fuel : Nat) (st : PngState)
        (tp : List Nat) (plen c : Nat) (rest : List Nat),
        tp.length = 4 + plen → plen < 2 ^ 32 → c < 2 ^ 32 →
        crc32 tp % 2 ^ 32 ≠ c →
        openPngLoop dec (fuel + 1) st (be32 plen ++ (tp ++ (be32 c ++ rest))) =
          .error (.valueError "Corrupted PNG file")) ∧
    (∀ (compress : List Nat → List Nat)
        (dec : List Nat → Except PyErr (List Nat)) (img : Image)
        (bytes : List Nat),
        (∀ l, (∀ b ∈ l, b < 256) → ∀ b ∈ compress l, b < 256) →
        savePng compress img = .ok bytes →
        ∀ start tp, (start, tp) ∈ pngChunkRegions compress img →
        ∀ i, i < tp.length → ∀ v, v < 256 → v ≠ tp.getD i 0 →
        decode dec (bytes.set (start + i) v) =
          .error (.valueError "Corrupted PNG file")) := by
  constructor
  · intro dec fuel st tp plen c rest htp hplen hc hne
    exact openPngLoop_badcrc dec fuel st tp plen c rest htp hplen hc hne
  · intro compress dec img bytes hcb hsave start tp hmem i hi v hv hvne
    exact decode_set_corrupt hcb hsave start tp hmem i hi v hv hvne

set_option maxRecDepth 10000 in
/-- Witness for `png_crc_enforcement`: a concrete chunk with a wrong
stored CRC, and the saved 2x1 PNG with the first byte of the `IHDR` type
tag overwritten by 0. -/
theorem png_crc_enforcement_witness :
    openPngLoop Except.ok 1 initPngState
        (be32 0 ++ ([73, 72, 68, 82] ++ (be32 0 ++ []))) =
      .error (.valueError "Corrupted PNG file") ∧
    decode Except.ok
        (([137, 80, 78, 71, 13, 10, 26, 10, 0, 0, 0, 13, 73, 72, 68, 82, 0, 0,
          0, 2, 0, 0, 0, 1, 8, 0, 0, 0, 0, 209, 73, 32, 86, 0, 0, 0, 3, 73, 68,
          65, 84, 0, 255, 0, 106, 238, 179, 208, 0, 0, 0, 0, 73, 69, 78, 68,
          174, 66, 96, 130] : List Nat).set (12 + 0) 0) =
      .error (.valueError "Corrupted PNG file") := by
  constructor
  · exact png_crc_enforcement.1 Except.ok 0 initPngState [73, 72, 68, 82] 0 0 []
      (by decide) (by decide) (by decide) (by decide)
  · exact png_crc_enforcement.2 id Except.ok ⟨"L", 2, 1, [[300, -5]]⟩ _
      (fun l h => h) (by decide) 12
      (tIHDR ++ ihdrPayload ⟨"L", 2, 1, [[300, -5]]⟩) (by decide) 0 (by decide)
      0 (by decide) (by decide)

end PILSpec
